import Mathlib

/-!
# Verification of the structural-comparison core

A shallow embedding, in Lean 4, of the normalization-and-comparison core of
the `pencil-structural-compare` repository, together with theorems settling
the specification claims about it.

Modelling conventions, used throughout:

* JavaScript runtime values that flow through the comparator
  (`number | string | null | undefined`, plus `NaN` produced by failed
  parses) are modelled by the inductive type `JSVal`; JS numbers are
  modelled as rationals (`ℚ`).
* JS objects used as string-keyed maps (`Record<string, T>`, `Map`) are
  modelled as insertion-ordered association lists; `upsert` mirrors JS
  property assignment (an existing key keeps its position, a new key is
  appended), matching JS enumeration order for non-index keys.
* `Math.sqrt` does not exist on `ℚ`; every comparison `√d ≤ t` performed by
  the source is modelled by the equivalent `0 ≤ t ∧ d ≤ t²` (see `sqrtLe`),
  and strict `√d < t` by `0 ≤ t ∧ d < t²` where the source uses it.
* TS fields named `type` are called `ty` here (`type` reads badly in Lean).
* `generateId` draws from `Math.random`; it is modelled by an explicit
  function parameter `idGen`, since no embedded computation inspects ids
  beyond equality of the ids the caller supplied.
-/

namespace PencilCompare

/-- JavaScript values as they flow through the comparator: `undefined`,
`null`, numbers (rationals; `nan` kept separate so that strict equality can
treat `NaN ≠ NaN`), and strings. -/
inductive JSVal where
  | undefined
  | null
  | nan
  | num (q : ℚ)
  | str (s : String)
deriving DecidableEq, Repr

/-- JS strict equality `===` on the modelled values: `NaN === NaN` is false,
otherwise values of equal type compare structurally. -/
def jsEq (a b : JSVal) : Bool :=
  match a, b with
  | .nan, _ => false
  | _, .nan => false
  | a, b => decide (a = b)

/-- Truthiness of an optional string (`undefined` and `""` are falsy). -/
def truthyStr : Option String → Bool
  | some s => s ≠ ""
  | none => false

/-- JS `a || b` for an optional string `a` with string fallback `b`. -/
def jsOrStr (a : Option String) (b : String) : String :=
  if truthyStr a then a.getD "" else b

/-- Digit run to a natural number (radix 10). -/
def digitsVal (cs : List Char) : ℕ :=
  cs.foldl (fun a c => a * 10 + (c.toNat - '0'.toNat)) 0

/-- JS `parseInt(s, 10)`: skip leading whitespace, optional sign, then the
leading digit run; `none` models `NaN` (no digits). -/
def parseIntJS (s : String) : Option ℤ :=
  let cs := s.data.dropWhile Char.isWhitespace
  let signAndRest : ℤ × List Char :=
    match cs with
    | '-' :: rest => (-1, rest)
    | '+' :: rest => (1, rest)
    | rest => (1, rest)
  let digits := signAndRest.2.takeWhile Char.isDigit
  if digits.isEmpty then none
  else some (signAndRest.1 * (digitsVal digits : ℤ))

/-- JS `parseFloat` restricted to the digit/dot token shapes the source
feeds it (regex classes `[\d.]`): leading digit run, optional `.` plus
digits; `none` models `NaN` (no leading digit in either part). -/
def parseFloatJS (s : String) : Option ℚ :=
  let cs := s.data
  let intPart := cs.takeWhile Char.isDigit
  let rest := cs.drop intPart.length
  match rest with
  | '.' :: rest2 =>
    let frac := rest2.takeWhile Char.isDigit
    if intPart.isEmpty ∧ frac.isEmpty then none
    else
      some ((digitsVal intPart : ℚ) +
        (digitsVal frac : ℚ) / ((10 : ℚ) ^ frac.length))
  | _ => if intPart.isEmpty then none else some (digitsVal intPart : ℚ)

/-- Decides `√d ≤ t` for a natural `d` and rational `t`
(`√d ≤ t ↔ 0 ≤ t ∧ d ≤ t²`). -/
def sqrtLe (d : ℕ) (t : ℚ) : Bool :=
  decide (0 ≤ t) && decide ((d : ℚ) ≤ t ^ 2)

/-- Decides `√d < t` (`√d < t ↔ 0 < t ∧ d < t²`). -/
def sqrtLt (d : ℕ) (t : ℚ) : Bool :=
  decide (0 < t) && decide ((d : ℚ) < t ^ 2)

/-- `Math.abs` on the rational model of JS numbers (a computable
definition that the kernel evaluates; equal to `|q|`). -/
def jsAbs (q : ℚ) : ℚ :=
  if q < 0 then -q else q

/-- JS `String.prototype.trim`. -/
def jsTrim (s : String) : String :=
  String.mk (((s.data.dropWhile Char.isWhitespace).reverse.dropWhile
    Char.isWhitespace).reverse)

/-- JS `String.prototype.toLowerCase` (ASCII, as used by the source). -/
def jsLower (s : String) : String :=
  String.mk (s.data.map Char.toLower)

/-- Insertion-ordered association-list update mirroring JS property
assignment: an existing key keeps its position, a new key is appended. -/
def upsert {α : Type} : List (String × α) → String → α → List (String × α)
  | [], k, v => [(k, v)]
  | (k', v') :: rest, k, v =>
    if k' = k then (k, v) :: rest else (k', v') :: upsert rest k v

/-- Association-list read (`m[k]`, first binding wins — keys are unique by
construction via `upsert`). -/
def assocGet {α : Type} : List (String × α) → String → Option α
  | [], _ => none
  | (k', v) :: rest, k => if k' = k then some v else assocGet rest k

/-- Order-preserving de-duplication (JS `Set` insertion/iteration order). -/
def dedupFirstAux : List String → List String → List String
  | _, [] => []
  | seen, k :: rest =>
    if seen.contains k then dedupFirstAux seen rest
    else k :: dedupFirstAux (k :: seen) rest

/-- Order-preserving de-duplication of a key list. -/
def dedupFirst (l : List String) : List String :=
  dedupFirstAux [] l

/-- Substring search on character lists (JS `String.prototype.includes`). -/
def containsSubAux (sub : List Char) : List Char → Bool
  | [] => sub.isEmpty
  | c :: rest => sub.isPrefixOf (c :: rest) || containsSubAux sub rest

/-- JS `s.includes(sub)`. -/
def strContainsSub (s sub : String) : Bool :=
  containsSubAux sub.data s.data

/-! ## src/utils/color.ts -/

/-- An RGB triple as produced by `hexToRgb`. -/
structure RGB where
  r : ℕ
  g : ℕ
  b : ℕ
deriving DecidableEq, Repr

/-- Value of one hexadecimal digit (case-insensitive), `none` otherwise. -/
def hexDigitVal (c : Char) : Option ℕ :=
  if c.isDigit then some (c.toNat - '0'.toNat)
  else if 'a' ≤ c ∧ c ≤ 'f' then some (c.toNat - 'a'.toNat + 10)
  else if 'A' ≤ c ∧ c ≤ 'F' then some (c.toNat - 'A'.toNat + 10)
  else none

/-- `hexToRgb` (src/utils/color.ts lines 9-18): regex
`/^#?([a-f\d]{2})([a-f\d]{2})([a-f\d]{2})$/i` — an optional leading `#`
followed by exactly six hex digits; `null` otherwise. -/
def hexToRgb (hex : String) : Option RGB :=
  let cs := if "#".data.isPrefixOf hex.data then hex.data.drop 1 else hex.data
  match cs with
  | [a, b, c, d, e, f] =>
    match hexDigitVal a, hexDigitVal b, hexDigitVal c,
          hexDigitVal d, hexDigitVal e, hexDigitVal f with
    | some h1, some h2, some h3, some h4, some h5, some h6 =>
      some ⟨16 * h1 + h2, 16 * h3 + h4, 16 * h5 + h6⟩
    | _, _, _, _, _, _ => none
  | _ => none

/-- Squared Euclidean distance between two RGB triples. -/
def rgbDistSq (x y : RGB) : ℕ :=
  ((x.r : ℤ) - y.r).natAbs ^ 2 + ((x.g : ℤ) - y.g).natAbs ^ 2 +
    ((x.b : ℤ) - y.b).natAbs ^ 2

/-- `colorDistance` (src/utils/color.ts lines 40-53) returns the Euclidean
RGB distance, `0` for identical unparsable strings and the sentinel
`255·√3` when either color is unparsable and the strings differ.  This
definition is its square (`255²·3 = 195075`); the source's comparisons
`colorDistance ≤ t` are recovered through `colorDistanceLe`. -/
def colorDistanceSq (c1 c2 : String) : ℕ :=
  match hexToRgb c1, hexToRgb c2 with
  | some a, some b => rgbDistSq a b
  | _, _ => if c1 = c2 then 0 else 195075

/-- Decides `colorDistance c1 c2 ≤ t` (the source's comparison), via
`√d ≤ t ↔ 0 ≤ t ∧ d ≤ t²`. -/
def colorDistanceLe (c1 c2 : String) (t : ℚ) : Bool :=
  sqrtLe (colorDistanceSq c1 c2) t

/-- `colorsEqual` (src/utils/color.ts lines 61-76): exact string equality
short-circuits true; otherwise, only when `tolerance > 0`, true iff
`colorDistance ≤ tolerance`; false when `tolerance ≤ 0`. -/
def colorsEqual (c1 c2 : String) (tolerance : ℚ) : Bool :=
  if c1 = c2 then true
  else if 0 < tolerance then colorDistanceLe c1 c2 tolerance
  else false

/-! ## src/utils/format.ts -/

/-- `convertCSSValue` (src/utils/format.ts lines 25-42): regex
`/^([\d.]+)(px|rem|em|%)?$/`; a px or unit-less numeric value becomes a
number (`nan` when `parseFloat` fails, e.g. on a dot-only token), values in
rem/em/% keep the original string, anything else is returned unchanged. -/
def convertCSSValue (value : String) : JSVal :=
  let cs := value.data
  let numTok := cs.takeWhile (fun c => c.isDigit || c = '.')
  let rest := cs.drop numTok.length
  let unit := String.mk rest
  if numTok ≠ [] ∧ (rest = [] ∨ unit = "px" ∨ unit = "rem" ∨ unit = "em" ∨ unit = "%") then
    if rest = [] ∨ unit = "px" then
      match parseFloatJS (String.mk numTok) with
      | some q => .num q
      | none => .nan
    else .str value
  else .str value

/-- `undefined`/`null` test used by `valuesEqual`'s early returns. -/
def isNullish : JSVal → Bool
  | .undefined => true
  | .null => true
  | _ => false

/-- The number a fontWeight operand coerces to in `valuesEqual`:
numbers pass through, strings go through `parseInt` (`none` models `NaN`). -/
def fontWeightNum : JSVal → Option ℚ
  | .num q => some q
  | .str s => (parseIntJS s).map (fun z => (z : ℚ))
  | _ => none

/-- `valuesEqual` (src/utils/format.ts lines 89-133): nullish on both sides
⇒ equal, one-sided nullish ⇒ unequal, strict equality ⇒ equal; for
`fontWeight`, `"normal"` coerces to `400`, numeric strings are parsed and
the integers compared; numbers compare with `|a−b| ≤ tolerance`; strings
compare case-insensitively; anything else is unequal. -/
def valuesEqual (val1 val2 : JSVal) (tolerance : ℚ) (property : Option String) : Bool :=
  if isNullish val1 then isNullish val2
  else if isNullish val2 then false
  else if jsEq val1 val2 then true
  else
    let fw : Option Bool :=
      if property = some "fontWeight" then
        let norm1 := if jsEq val1 (.str "normal") then JSVal.num 400 else val1
        let norm2 := if jsEq val2 (.str "normal") then JSVal.num 400 else val2
        match fontWeightNum norm1, fontWeightNum norm2 with
        | some n1, some n2 => some (decide (n1 = n2))
        | _, _ => none
      else none
    match fw with
    | some b => b
    | none =>
      match val1, val2 with
      | .num a, .num b => decide (jsAbs (a - b) ≤ tolerance)
      | .str a, .str b => decide (jsLower a = jsLower b)
      | _, _ => false

/-! ## src/config/name-mapping.ts -/

/-- `PENCIL_TO_CODE_NAME` (src/config/name-mapping.ts lines 17-32); the
`divider1`/`divider2` entries are commented out in the source. -/
def PENCIL_TO_CODE_NAME : List (String × String) :=
  [("settingsButton", "SettingsDropdown"),
   ("settingsIndicator", "SettingsDropdown"),
   ("settingsIndicatorContainer", "SettingsDropdown"),
   ("welcomeMsg", "welcomeMessage")]

/-- `CODE_CLASS_TO_PENCIL_NAME` (src/config/name-mapping.ts lines 49-53). -/
def CODE_CLASS_TO_PENCIL_NAME : List (String × String) :=
  [("welcomeMessage", "welcomeMsg")]

/-- `mapPencilNameToCode` (src/config/name-mapping.ts lines 58-60):
`PENCIL_TO_CODE_NAME[pencilName] || pencilName`. -/
def mapPencilNameToCode (pencilName : String) : String :=
  (assocGet PENCIL_TO_CODE_NAME pencilName).getD pencilName

/-- `stripNumericSuffix` (src/config/name-mapping.ts lines 103-105):
`name.replace(/\d+$/, '')`. -/
def stripNumericSuffix (name : String) : String :=
  String.mk ((name.data.reverse.dropWhile Char.isDigit).reverse)

/-! ## src/config/independent-components.ts -/

/-- `INDEPENDENT_COMPONENT_MAPPING`
(src/config/independent-components.ts lines 19-28). -/
def INDEPENDENT_COMPONENT_MAPPING : List (String × String) :=
  [("settingsButton", "SettingsDropdown"),
   ("settingsIndicator", "SettingsDropdown"),
   ("settingsIndicatorContainer", "SettingsDropdown"),
   ("headerActions", "SettingsDropdown")]

/-- `isIndependentComponent` (src/config/independent-components.ts
lines 33-35). -/
def isIndependentComponent (pencilName : String) : Bool :=
  (assocGet INDEPENDENT_COMPONENT_MAPPING pencilName).isSome

/-- `getIndependentComponentCodeName`
(src/config/independent-components.ts lines 40-42). -/
def getIndependentComponentCodeName (pencilName : String) : Option String :=
  assocGet INDEPENDENT_COMPONENT_MAPPING pencilName

/-! ## src/utils/path.ts -/

/-- `buildPath` (src/utils/path.ts lines 21-31): a root element (empty
parent path) is its bare name; otherwise `parent > name[index]`. -/
def buildPath (parentPath name : String) (index : ℕ) : String :=
  if parentPath = "" then name
  else parentPath ++ " > " ++ name ++ "[" ++ toString index ++ "]"

/-- JS `path.split(' > ')`, specialised to the source's three-character
`PATH_SEPARATOR`; the accumulator holds the current segment reversed. -/
def splitPathSepAux : List Char → List Char → List (List Char)
  | ' ' :: '>' :: ' ' :: rest, cur => cur.reverse :: splitPathSepAux rest []
  | c :: rest, cur => splitPathSepAux rest (c :: cur)
  | [], cur => [cur.reverse]

/-- JS `path.split(' > ')`. -/
def splitPathSep (path : String) : List String :=
  (splitPathSepAux path.data []).map String.mk

/-- JS `s.split(' ')` (single-space separator, no filtering). -/
def splitSpaceAux : List Char → List Char → List (List Char)
  | ' ' :: rest, cur => cur.reverse :: splitSpaceAux rest []
  | c :: rest, cur => splitSpaceAux rest (c :: cur)
  | [], cur => [cur.reverse]

/-- JS `s.split(' ')`. -/
def splitSpace (s : String) : List String :=
  (splitSpaceAux s.data []).map String.mk

/-- `extractName` (src/utils/path.ts lines 173-179): the path part up to
the first `[` (the whole part when there is none). -/
def extractName (pathPart : String) : String :=
  String.mk (pathPart.data.takeWhile (fun c => c ≠ '['))

/-- `arePathsEquivalentByName` (src/utils/path.ts lines 132-167): exact
path equality short-circuits true; otherwise the root segment names must
match exactly and the design-side final segment name — mapped through the
optional alias function — must equal the implementation-side final segment
name; all intermediate segments are ignored. -/
def arePathsEquivalentByName (pencilPath codePath : String)
    (nameMapping : Option (String → String)) : Bool :=
  if pencilPath = codePath then true
  else
    let pencilParts := splitPathSep pencilPath
    let codeParts := splitPathSep codePath
    let pencilRootName := extractName (pencilParts.headD "")
    let codeRootName := extractName (codeParts.headD "")
    if pencilRootName ≠ codeRootName then false
    else
      let pencilLastName := extractName (pencilParts.getLastD "")
      let codeLastName := extractName (codeParts.getLastD "")
      let mappedPencilName :=
        match nameMapping with
        | some f => f pencilLastName
        | none => pencilLastName
      decide (mappedPencilName = codeLastName)

/-! ## Data model (src/types.ts)

`StandardElement` is the canonical element shared by both normalizers.
The TS `metadata.originalNode` field (a reference back to the raw source
node) is not modelled: no embedded computation ever reads it. -/

/-- `LayoutProperties` (src/types.ts lines 65-77). -/
structure LayoutProperties where
  ty : Option String
  direction : Option String
  justifyContent : Option String
  alignItems : Option String
deriving DecidableEq, Repr

/-- `ElementMetadata` (src/types.ts lines 82-100), minus `originalNode`. -/
structure ElementMetadata where
  source : String
  originalId : Option String
  isIndependentComponent : Option Bool
  codeComponentName : Option String
  pencilComponentName : Option String
deriving DecidableEq, Repr

/-- `StandardElement` (src/types.ts lines 106-130).  `styles` is the open
string-keyed style map; `children` is genuinely optional (its absence is
what the opaque-component invariant is about). -/
inductive StandardElement where
  | mk (id : String) (ty : String) (path : String) (content : Option String)
      (styles : List (String × JSVal)) (layout : Option LayoutProperties)
      (children : Option (List StandardElement))
      (metadata : Option ElementMetadata)

/-- Element id. -/
def StandardElement.id : StandardElement → String
  | .mk i _ _ _ _ _ _ _ => i

/-- Element type (TS `type`). -/
def StandardElement.ty : StandardElement → String
  | .mk _ t _ _ _ _ _ _ => t

/-- Element path. -/
def StandardElement.path : StandardElement → String
  | .mk _ _ p _ _ _ _ _ => p

/-- Text content. -/
def StandardElement.content : StandardElement → Option String
  | .mk _ _ _ c _ _ _ _ => c

/-- Style map. -/
def StandardElement.styles : StandardElement → List (String × JSVal)
  | .mk _ _ _ _ s _ _ _ => s

/-- Layout properties. -/
def StandardElement.layout : StandardElement → Option LayoutProperties
  | .mk _ _ _ _ _ l _ _ => l

/-- Children (absent for leaf and elided nodes). -/
def StandardElement.children : StandardElement → Option (List StandardElement)
  | .mk _ _ _ _ _ _ ch _ => ch

/-- Metadata. -/
def StandardElement.metadata : StandardElement → Option ElementMetadata
  | .mk _ _ _ _ _ _ _ m => m

/-- `ComparisonOptions` (src/types.ts lines 164-176); all fields optional. -/
structure ComparisonOptions where
  tolerance : Option ℚ
  colorTolerance : Option ℚ
  ignoreProperties : Option (List String)
  severity : Option String

/-- The default (empty) options object `{}`. -/
def ComparisonOptions.empty : ComparisonOptions :=
  ⟨none, none, none, none⟩

/-- The `metadata` sub-object of `ElementMatch` (src/types.ts lines
200-204); only `matchMethod` is ever written by the comparator. -/
structure MatchMetadata where
  matchMethod : Option String
deriving DecidableEq, Repr

/-- `ElementMatch` (src/types.ts lines 181-205). -/
structure ElementMatch where
  path : String
  pencil : StandardElement
  code : StandardElement
  confidence : ℚ
  propertiesMatch : List (String × Bool)
  metadata : Option MatchMetadata

/-- `ElementDiff` (src/types.ts lines 210-228). -/
structure ElementDiff where
  path : String
  element : StandardElement
  ty : String
  severity : String
  reason : String
  suggestion : Option String

/-- The `diff` magnitude attached to a `StyleDiff`: the absolute numeric
difference, or the RGB Euclidean distance `√d` represented by its square. -/
inductive DiffMagnitude where
  | numAbs (q : ℚ)
  | rgbDistSqrt (dsq : ℕ)
deriving DecidableEq, Repr

/-- `StyleDiff` (src/types.ts lines 233-251). -/
structure StyleDiff where
  path : String
  property : String
  pencilValue : JSVal
  codeValue : JSVal
  diff : Option DiffMagnitude
  severity : String

/-- `ComparisonSummary` (src/types.ts lines 256-277). -/
structure ComparisonSummary where
  totalElements : ℕ
  matchedElements : ℕ
  missingElements : ℕ
  extraElements : ℕ
  styleDiffs : ℕ
  matchRate : ℚ
  status : String
deriving DecidableEq, Repr

/-- `ComparisonResult` (src/types.ts lines 282-300), minus `meta`
(timestamp/screen/sources environment data never read by the embedded
functions). -/
structure ComparisonResult where
  matches' : List ElementMatch
  missingInCode : List ElementDiff
  extraInCode : List ElementDiff
  styleDiffs : List StyleDiff
  summary : ComparisonSummary

/-! ## src/core/element.ts (element-level comparison) -/

/-- The fixed ordered list of comparable properties
(src/core/element.ts lines 26-35). -/
def propertiesToCompare : List String :=
  ["content", "fontSize", "fontWeight", "color", "backgroundColor",
   "padding", "gap", "borderRadius"]

/-- Reads the compared value of a property from an element: `content` is
the top-level field, everything else lives in `styles`
(src/core/element.ts lines 46-52); an absent entry reads as `undefined`. -/
def propOf (el : StandardElement) (prop : String) : JSVal :=
  if prop = "content" then
    match el.content with
    | some s => .str s
    | none => .undefined
  else (assocGet el.styles prop).getD .undefined

namespace element

/-- `compareProperty` (src/core/element.ts lines 86-141) — the simplified
single-property rule used for confidence scoring: both `undefined` ⇒ match,
one-sided `undefined` ⇒ mismatch, strict equality ⇒ match; numbers with
`|a−b| ≤ tolerance`; for `color`/`backgroundColor` with two `#`-prefixed
strings, RGB distance ≤ colorTolerance; anything else ⇒ mismatch. -/
def compareProperty (property : String) (pencilValue codeValue : JSVal)
    (options : ComparisonOptions) : Bool :=
  if pencilValue = .undefined ∧ codeValue = .undefined then true
  else if pencilValue = .undefined ∨ codeValue = .undefined then false
  else if jsEq pencilValue codeValue then true
  else
    let tolerance := options.tolerance.getD 0
    match pencilValue, codeValue with
    | .num a, .num b => decide (jsAbs (a - b) ≤ tolerance)
    | .str a, .str b =>
      if (property = "color" ∨ property = "backgroundColor") ∧
          "#".data.isPrefixOf a.data ∧ "#".data.isPrefixOf b.data then
        match hexToRgb a, hexToRgb b with
        | some r1, some r2 =>
          let colorTolerance := options.colorTolerance.getD 0
          sqrtLe (rgbDistSq r1 r2) colorTolerance
        | _, _ => false
      else false
    | _, _ => false

end element

/-- The loop body of `compareElements`: one property updates the
accumulated `(propertiesMatch, matchCount, totalCount)` state
(src/core/element.ts lines 39-70). -/
def compareElementsStep (pencil code : StandardElement)
    (options : ComparisonOptions)
    (st : List (String × Bool) × ℕ × ℕ) (prop : String) :
    List (String × Bool) × ℕ × ℕ :=
  if (options.ignoreProperties.getD []).contains prop then st
  else
    let pencilValue := propOf pencil prop
    let codeValue := propOf code prop
    if pencilValue = .undefined ∧ codeValue = .undefined then st
    else
      let isMatch := element.compareProperty prop pencilValue codeValue options
      (upsert st.1 prop isMatch,
       st.2.1 + (if isMatch then 1 else 0),
       st.2.2 + 1)

/-- `compareElements` (src/core/element.ts lines 16-81): walks the fixed
property list, skipping globally ignored properties and properties
`undefined` on both sides, and scores
`confidence = matchCount / totalCount` (`1` when nothing was compared). -/
def compareElements (pencil code : StandardElement)
    (options : ComparisonOptions) : ElementMatch :=
  let st := propertiesToCompare.foldl (compareElementsStep pencil code options)
    ([], 0, 0)
  let confidence : ℚ := if st.2.2 > 0 then (st.2.1 : ℚ) / (st.2.2 : ℚ) else 1
  ⟨pencil.path, pencil, code, confidence, st.1, none⟩

/-! ## src/core/style.ts (style-diff comparison) -/

/-- `CRITICAL_PROPERTIES` (src/core/style.ts lines 15-23). -/
def CRITICAL_PROPERTIES : List String :=
  ["content", "fontSize", "fontWeight", "color", "backgroundColor",
   "padding", "gap"]

namespace style

/-- `compareProperty` (src/core/style.ts lines 105-121): `color` and
`backgroundColor` with two string values go through `colorsEqual`;
everything else through `valuesEqual` with the property hint. -/
def compareProperty (property : String) (pencilValue codeValue : JSVal)
    (tolerance colorTolerance : ℚ) : Bool :=
  if property = "color" ∨ property = "backgroundColor" then
    match pencilValue, codeValue with
    | .str a, .str b => colorsEqual a b colorTolerance
    | v1, v2 => valuesEqual v1 v2 tolerance (some property)
  else valuesEqual pencilValue codeValue tolerance (some property)

end style

/-- `getSeverity` (src/core/style.ts lines 128-148): `strict` ⇒ error,
`lenient` ⇒ info, else error for critical properties and warning
otherwise. -/
def getSeverity (property : String) (options : ComparisonOptions) : String :=
  if options.severity = some "strict" then "error"
  else if options.severity = some "lenient" then "info"
  else if CRITICAL_PROPERTIES.contains property then "error"
  else "warning"

/-- `calculateDiff` (src/core/style.ts lines 155-178): absolute difference
for two numbers, RGB Euclidean distance (as its square, see
`DiffMagnitude`) for two parsable `#`-strings, otherwise absent. -/
def calculateDiff (pencilValue codeValue : JSVal) : Option DiffMagnitude :=
  match pencilValue, codeValue with
  | .num a, .num b => some (.numAbs (jsAbs (a - b)))
  | .str a, .str b =>
    if "#".data.isPrefixOf a.data ∧ "#".data.isPrefixOf b.data then
      match hexToRgb a, hexToRgb b with
      | some r1, some r2 => some (.rgbDistSqrt (rgbDistSq r1 r2))
      | _, _ => none
    else none
  | _, _ => none

/-- Reads a style value (`styles[prop]`); absent entries read `undefined`. -/
def styleGet (styles : List (String × JSVal)) (prop : String) : JSVal :=
  (assocGet styles prop).getD .undefined

/-- `compareStyles` (src/core/style.ts lines 32-95): an error-severity
content diff on strict content inequality (unless `content` is ignored),
then one diff per unequal property over the union of both style maps'
keys, with severity from `getSeverity` and magnitude from
`calculateDiff`. -/
def compareStyles (pencil code : StandardElement)
    (options : ComparisonOptions) (elementPath : String) : List StyleDiff :=
  let ignoreProps := options.ignoreProperties.getD []
  let tolerance := options.tolerance.getD 0
  let colorTolerance := options.colorTolerance.getD 0
  let contentDiffs : List StyleDiff :=
    if ignoreProps.contains "content" then []
    else if pencil.content ≠ code.content then
      [⟨elementPath, "content", propOf pencil "content", propOf code "content",
        none, "error"⟩]
    else []
  let allProps :=
    dedupFirst (pencil.styles.map Prod.fst ++ code.styles.map Prod.fst)
  allProps.foldl (fun diffs prop =>
    if ignoreProps.contains prop then diffs
    else
      let pencilValue := styleGet pencil.styles prop
      let codeValue := styleGet code.styles prop
      if style.compareProperty prop pencilValue codeValue tolerance colorTolerance
      then diffs
      else diffs ++ [⟨elementPath, prop, pencilValue, codeValue,
        calculateDiff pencilValue codeValue, getSeverity prop options⟩])
    contentDiffs

/-! ## src/core/compare.ts (the comparison orchestrator) -/

mutual

/-- The pre-order path index walk (`indexByPath`, src/utils/path.ts lines
63-76): records every node of the forest under its `path`. -/
def indexByPathAdd : List (String × StandardElement) → StandardElement →
    List (String × StandardElement)
  | acc, .mk i t p c s l ch m =>
    let acc := upsert acc p (.mk i t p c s l ch m)
    match ch with
    | some cs => indexByPathAddList acc cs
    | none => acc

/-- `indexByPathAdd` over a child list, left to right. -/
def indexByPathAddList : List (String × StandardElement) →
    List StandardElement → List (String × StandardElement)
  | acc, [] => acc
  | acc, e :: rest => indexByPathAddList (indexByPathAdd acc e) rest

end

/-- `indexByPath` (src/utils/path.ts lines 63-76). -/
def indexByPath (elements : List StandardElement) :
    List (String × StandardElement) :=
  indexByPathAddList [] elements

/-- Whether an element has truthy, non-whitespace content
(`el.content && el.content.trim()`). -/
def hasTrimContent (el : StandardElement) : Bool :=
  match el.content with
  | some s => jsTrim s ≠ ""
  | none => false

/-- The content key of an element (`content.trim().toLowerCase()`). -/
def contentKey (el : StandardElement) : String :=
  jsLower (jsTrim (el.content.getD ""))

/-- Appends a value to a keyed list entry (the `Map`-of-lists push used by
`indexByContent`): an existing key keeps its position. -/
def appendAt (m : List (String × List StandardElement)) (k : String)
    (v : StandardElement) : List (String × List StandardElement) :=
  match assocGet m k with
  | some l => upsert m k (l ++ [v])
  | none => upsert m k [v]

mutual

/-- The recursive walk of `indexByContent`
(src/core/compare.ts lines 275-292). -/
def indexByContentAdd : List (String × List StandardElement) →
    StandardElement → List (String × List StandardElement)
  | acc, .mk i t p c s l ch m =>
    let el := StandardElement.mk i t p c s l ch m
    let acc := if hasTrimContent el then appendAt acc (contentKey el) el else acc
    match ch with
    | some cs => indexByContentAddList acc cs
    | none => acc

/-- `indexByContentAdd` over a child list, left to right. -/
def indexByContentAddList : List (String × List StandardElement) →
    List StandardElement → List (String × List StandardElement)
  | acc, [] => acc
  | acc, e :: rest => indexByContentAddList (indexByContentAdd acc e) rest

end

/-- `indexByContent` (src/core/compare.ts lines 275-292): maps trimmed,
lower-cased content to the elements carrying it, in encounter order. -/
def indexByContent (elements : List StandardElement) :
    List (String × List StandardElement) :=
  indexByContentAddList [] elements

/-- `findMatchByContent` (src/core/compare.ts lines 300-334): among the
candidates sharing the target's content key, the first unclaimed candidate
of the same type wins; otherwise the first unclaimed candidate of any
type; otherwise none. -/
def findMatchByContent (target : StandardElement)
    (contentIndex : List (String × List StandardElement))
    (matchedIds : List String) : Option StandardElement :=
  if ¬ hasTrimContent target then none
  else
    let candidates := (assocGet contentIndex (contentKey target)).getD []
    if candidates.isEmpty then none
    else
      match candidates.find?
          (fun c => ¬ matchedIds.contains c.id ∧ c.ty = target.ty) with
      | some c => some c
      | none => candidates.find? (fun c => ¬ matchedIds.contains c.id)

/-- `generateSuggestion` (src/core/compare.ts lines 253-269). -/
def generateSuggestion (element : StandardElement) : String :=
  let contentParts : List String :=
    if truthyStr element.content then
      let c := element.content.getD ""
      ["\"" ++ c ++ "\""]
    else []
  let typeParts : List String :=
    if element.ty = "text" then ["텍스트 요소"]
    else if element.ty = "button" then ["버튼"]
    else if element.ty = "container" then ["컨테이너"]
    else []
  "추가: " ++ String.intercalate " " (contentParts ++ typeParts)

/-- `calculateSummary` (src/core/compare.ts lines 197-248): totals are raw
list lengths; `matchedElements` counts matches with confidence ≥ 0.5;
missing/extra/style-diff counts keep only error severity; the match rate
is `matched/total × 100` (`100` for an empty run); the status is `fail`
when any error-severity missing element, style diff, or extra element
exists, `warning` when any extra element exists at all, else `pass`. -/
def calculateSummary (result : ComparisonResult)
    (_options : ComparisonOptions) : ComparisonSummary :=
  let totalElements := result.matches'.length + result.missingInCode.length +
    result.extraInCode.length
  let matchedElements :=
    (result.matches'.filter (fun m => decide ((1 : ℚ)/2 ≤ m.confidence))).length
  let missingElements :=
    (result.missingInCode.filter (fun d => d.severity = "error")).length
  let extraElements :=
    (result.extraInCode.filter (fun d => d.severity = "error")).length
  let styleDiffCount :=
    (result.styleDiffs.filter (fun d => d.severity = "error")).length
  let matchRate : ℚ :=
    if totalElements > 0 then ((matchedElements : ℚ) / (totalElements : ℚ)) * 100
    else 100
  let status :=
    if missingElements > 0 ∨ styleDiffCount > 0 then "fail"
    else if extraElements > 0 then "fail"
    else if result.extraInCode.length > 0 then "warning"
    else "pass"
  ⟨totalElements, matchedElements, missingElements, extraElements,
   styleDiffCount, matchRate, status⟩

/-- The mutable run state of `compareStructures`'s per-path loop. -/
structure CompareState where
  matches' : List ElementMatch
  missingInCode : List ElementDiff
  extraInCode : List ElementDiff
  styleDiffs : List StyleDiff
  matchedPencilIds : List String
  matchedCodeIds : List String

/-- One iteration of `compareStructures`'s per-path loop
(src/core/compare.ts lines 103-186). -/
def processPath (pencilByPath codeByPath : List (String × StandardElement))
    (pencilByContent codeByContent : List (String × List StandardElement))
    (pathMatches : List (String × String)) (options : ComparisonOptions)
    (st : CompareState) (path : String) : CompareState :=
  let actualCodePath := (assocGet pathMatches path).getD path
  match assocGet pencilByPath path, assocGet codeByPath actualCodePath with
  | some pencilEl, none =>
    let fallback :=
      if hasTrimContent pencilEl then
        findMatchByContent pencilEl codeByContent st.matchedCodeIds
      else none
    match fallback with
    | some contentMatch =>
      { st with
        matches' := st.matches' ++
          [⟨pencilEl.path, pencilEl, contentMatch, 7/10, [("content", true)],
            some ⟨some "content"⟩⟩],
        matchedPencilIds := st.matchedPencilIds ++ [pencilEl.id],
        matchedCodeIds := st.matchedCodeIds ++ [contentMatch.id] }
    | none =>
      { st with
        missingInCode := st.missingInCode ++
          [⟨path, pencilEl, "missing", "error", "Pencil에 있지만 코드에 없음",
            some (generateSuggestion pencilEl)⟩] }
  | none, some codeEl =>
    let fallback :=
      if hasTrimContent codeEl then
        findMatchByContent codeEl pencilByContent st.matchedPencilIds
      else none
    match fallback with
    | some contentMatch =>
      { st with
        matches' := st.matches' ++
          [⟨codeEl.path, contentMatch, codeEl, 7/10, [("content", true)],
            some ⟨some "content"⟩⟩],
        matchedPencilIds := st.matchedPencilIds ++ [contentMatch.id],
        matchedCodeIds := st.matchedCodeIds ++ [codeEl.id] }
    | none =>
      { st with
        extraInCode := st.extraInCode ++
          [⟨path, codeEl, "extra",
            if options.severity = some "strict" then "error" else "warning",
            "코드에 있지만 Pencil에 없음", none⟩] }
  | some pencilEl, some codeEl =>
    { st with
      matches' := st.matches' ++ [compareElements pencilEl codeEl options],
      styleDiffs := st.styleDiffs ++ compareStyles pencilEl codeEl options path,
      matchedPencilIds := st.matchedPencilIds ++ [pencilEl.id],
      matchedCodeIds := st.matchedCodeIds ++ [codeEl.id] }
  | none, none => st

/-- `compareStructures` (src/core/compare.ts lines 36-192): indexes both
forests by path and by content, aligns unmatched design paths through
`arePathsEquivalentByName` with `mapPencilNameToCode` (first match wins,
in path-key insertion order), classifies every path of either side, and
attaches the computed summary. -/
def compareStructures (pencilElements codeElements : List StandardElement)
    (options : ComparisonOptions) : ComparisonResult :=
  let pencilByPath := indexByPath pencilElements
  let codeByPath := indexByPath codeElements
  let allPaths :=
    dedupFirst (pencilByPath.map Prod.fst ++ codeByPath.map Prod.fst)
  let pencilByContent := indexByContent pencilElements
  let codeByContent := indexByContent codeElements
  let pathMatches : List (String × String) :=
    (pencilByPath.map Prod.fst).foldl (fun acc pencilPath =>
      if (assocGet codeByPath pencilPath).isSome then
        upsert acc pencilPath pencilPath
      else
        match (codeByPath.map Prod.fst).find? (fun codePath =>
            arePathsEquivalentByName pencilPath codePath
              (some mapPencilNameToCode)) with
        | some codePath => upsert acc pencilPath codePath
        | none => acc) []
  let finalState := allPaths.foldl
    (processPath pencilByPath codeByPath pencilByContent codeByContent
      pathMatches options)
    ⟨[], [], [], [], [], []⟩
  let result : ComparisonResult :=
    ⟨finalState.matches', finalState.missingInCode, finalState.extraInCode,
     finalState.styleDiffs, ⟨0, 0, 0, 0, 0, 0, "pass"⟩⟩
  { result with summary := calculateSummary result options }

/-! ## src/normalizers/pencil.ts (design-tree normalizer) -/

/-- A design-node stroke (`PencilNode.stroke`, src/types.ts lines 332-335). -/
structure PencilStroke where
  fill : Option String
  thickness : Option JSVal
deriving DecidableEq, Repr

/-- `PencilNode` (src/types.ts lines 309-363).  The `any`-typed visual
fields carry `JSVal`; `fill` and the layout fields are carried as the
strings the normalizer reads from them. -/
inductive PencilNode where
  | mk (id : Option String) (ty : String) (name : Option String)
      (content : Option String) (fontSize fontWeight : Option JSVal)
      (fill : Option String) (stroke : Option PencilStroke)
      (padding gap borderRadius cornerRadius width height : Option JSVal)
      (layout justifyContent alignItems : Option String)
      (children : Option (List PencilNode))

/-- Node id. -/
def PencilNode.id : PencilNode → Option String
  | .mk i _ _ _ _ _ _ _ _ _ _ _ _ _ _ _ _ _ => i

/-- Node type (TS `type`). -/
def PencilNode.ty : PencilNode → String
  | .mk _ t _ _ _ _ _ _ _ _ _ _ _ _ _ _ _ _ => t

/-- Node name. -/
def PencilNode.name : PencilNode → Option String
  | .mk _ _ n _ _ _ _ _ _ _ _ _ _ _ _ _ _ _ => n

/-- Text content. -/
def PencilNode.content : PencilNode → Option String
  | .mk _ _ _ c _ _ _ _ _ _ _ _ _ _ _ _ _ _ => c

/-- Font size. -/
def PencilNode.fontSize : PencilNode → Option JSVal
  | .mk _ _ _ _ fs _ _ _ _ _ _ _ _ _ _ _ _ _ => fs

/-- Font weight. -/
def PencilNode.fontWeight : PencilNode → Option JSVal
  | .mk _ _ _ _ _ fw _ _ _ _ _ _ _ _ _ _ _ _ => fw

/-- Fill color. -/
def PencilNode.fill : PencilNode → Option String
  | .mk _ _ _ _ _ _ f _ _ _ _ _ _ _ _ _ _ _ => f

/-- Stroke. -/
def PencilNode.stroke : PencilNode → Option PencilStroke
  | .mk _ _ _ _ _ _ _ s _ _ _ _ _ _ _ _ _ _ => s

/-- Padding. -/
def PencilNode.padding : PencilNode → Option JSVal
  | .mk _ _ _ _ _ _ _ _ p _ _ _ _ _ _ _ _ _ => p

/-- Gap. -/
def PencilNode.gap : PencilNode → Option JSVal
  | .mk _ _ _ _ _ _ _ _ _ g _ _ _ _ _ _ _ _ => g

/-- Border radius. -/
def PencilNode.borderRadius : PencilNode → Option JSVal
  | .mk _ _ _ _ _ _ _ _ _ _ br _ _ _ _ _ _ _ => br

/-- Corner radius (the untyped `cornerRadius` field). -/
def PencilNode.cornerRadius : PencilNode → Option JSVal
  | .mk _ _ _ _ _ _ _ _ _ _ _ cr _ _ _ _ _ _ => cr

/-- Width. -/
def PencilNode.width : PencilNode → Option JSVal
  | .mk _ _ _ _ _ _ _ _ _ _ _ _ w _ _ _ _ _ => w

/-- Height. -/
def PencilNode.height : PencilNode → Option JSVal
  | .mk _ _ _ _ _ _ _ _ _ _ _ _ _ h _ _ _ _ => h

/-- Layout direction string. -/
def PencilNode.layout : PencilNode → Option String
  | .mk _ _ _ _ _ _ _ _ _ _ _ _ _ _ l _ _ _ => l

/-- Main-axis alignment. -/
def PencilNode.justifyContent : PencilNode → Option String
  | .mk _ _ _ _ _ _ _ _ _ _ _ _ _ _ _ j _ _ => j

/-- Cross-axis alignment. -/
def PencilNode.alignItems : PencilNode → Option String
  | .mk _ _ _ _ _ _ _ _ _ _ _ _ _ _ _ _ a _ => a

/-- Children. -/
def PencilNode.children : PencilNode → Option (List PencilNode)
  | .mk _ _ _ _ _ _ _ _ _ _ _ _ _ _ _ _ _ ch => ch

/-- The `mapPencilTypeToStandard` lookup table
(src/normalizers/pencil.ts lines 27-44). -/
def pencilTypeMap : List (String × String) :=
  [("text", "text"), ("frame", "container"), ("rectangle", "container"),
   ("ellipse", "container"), ("group", "container"), ("line", "container"),
   ("path", "container"), ("icon_font", "icon"), ("image", "image"),
   ("connection", "container"), ("note", "container"), ("ref", "container")]

/-- `mapPencilTypeToStandard` (src/normalizers/pencil.ts lines 27-44):
unknown design-node types default to `container`. -/
def mapPencilTypeToStandard (pencilType : String) : String :=
  (assocGet pencilTypeMap pencilType).getD "container"

/-- Attempts to match the regex
`/rgba?\((\d+),\s*(\d+),\s*(\d+),\s*([\d.]+)\)/` at the start of the given
characters, returning the fourth capture group (the alpha token). -/
def rgbaAlphaAt (cs : List Char) : Option String :=
  match cs with
  | 'r' :: 'g' :: 'b' :: rest =>
    let afterParen : Option (List Char) :=
      match rest with
      | 'a' :: '(' :: r => some r
      | '(' :: r => some r
      | _ => none
    match afterParen with
    | none => none
    | some r =>
      let d1 := r.takeWhile Char.isDigit
      let r := r.drop d1.length
      match d1, r with
      | [], _ => none
      | _, ',' :: r =>
        let r := r.dropWhile Char.isWhitespace
        let d2 := r.takeWhile Char.isDigit
        let r := r.drop d2.length
        match d2, r with
        | [], _ => none
        | _, ',' :: r =>
          let r := r.dropWhile Char.isWhitespace
          let d3 := r.takeWhile Char.isDigit
          let r := r.drop d3.length
          match d3, r with
          | [], _ => none
          | _, ',' :: r =>
            let r := r.dropWhile Char.isWhitespace
            let d4 := r.takeWhile (fun c => c.isDigit || c = '.')
            let r := r.drop d4.length
            match d4, r with
            | [], _ => none
            | _, ')' :: _ => some (String.mk d4)
            | _, _ => none
          | _, _ => none
        | _, _ => none
      | _, _ => none
  | _ => none

/-- Leftmost match of the rgba alpha regex anywhere in the string
(JS `String.prototype.match` semantics for this pattern). -/
def rgbaAlphaSearch : List Char → Option String
  | [] => none
  | c :: rest =>
    match rgbaAlphaAt (c :: rest) with
    | some tok => some tok
    | none => rgbaAlphaSearch rest

/-- `isInvisibleStroke` (src/normalizers/pencil.ts lines 54-106): a stroke
is invisible when (1) it is an rgba color with alpha below 0.05, (2) it
equals the computed background color, (3) both are parsable hex colors at
RGB distance below 10, or (4) the `settingsButton`/`settingsIndicator`
special case fires (background contains `rgba(0, 188, 212` and the stroke
is `#00BCD4`). -/
def isInvisibleStroke (node : PencilNode) (backgroundColor : Option String) :
    Bool :=
  match node.stroke with
  | none => false
  | some stroke =>
    match stroke.fill with
    | none => false
    | some strokeColor =>
      if strokeColor = "" then false
      else
        let case1 :=
          if "rgba".data.isPrefixOf strokeColor.data then
            match rgbaAlphaSearch strokeColor.data with
            | some tok =>
              match parseFloatJS tok with
              | some a => decide (a < 1/20)
              | none => false
            | none => false
          else false
        let bgTruthy := truthyStr backgroundColor
        let case2 := bgTruthy && decide (backgroundColor = some strokeColor)
        let case3 :=
          if bgTruthy ∧ "#".data.isPrefixOf strokeColor.data ∧
              "#".data.isPrefixOf (backgroundColor.getD "").data then
            match hexToRgb strokeColor, hexToRgb (backgroundColor.getD "") with
            | some s, some b => sqrtLt (rgbDistSq s b) 10
            | _, _ => false
          else false
        let case4 :=
          (decide (node.name = some "settingsButton") ||
            decide (node.name = some "settingsIndicator")) &&
          (match backgroundColor with
           | some bg => strContainsSub bg "rgba(0, 188, 212"
           | none => false) &&
          decide (strokeColor = "#00BCD4")
        case1 || case2 || case3 || case4

/-- `extractPencilStyles` (src/normalizers/pencil.ts lines 126-183):
copies font size/weight; `fill` becomes `color` for text nodes and
`backgroundColor` for frames/rectangles; visible strokes become
`borderColor`/`borderWidth` (invisible strokes are dropped); padding, gap,
border radius (overridden by `cornerRadius` when present), width and
height are copied when present. -/
def extractPencilStyles (node : PencilNode) : List (String × JSVal) :=
  let styles : List (String × JSVal) := []
  let styles := match node.fontSize with
    | some v => upsert styles "fontSize" v
    | none => styles
  let styles := match node.fontWeight with
    | some v => upsert styles "fontWeight" v
    | none => styles
  let fillResult : List (String × JSVal) × Option String :=
    match node.fill with
    | some fv =>
      if node.ty = "text" then (upsert styles "color" (.str fv), none)
      else if node.ty = "frame" ∨ node.ty = "rectangle" then
        (upsert styles "backgroundColor" (.str fv), some fv)
      else (styles, none)
    | none => (styles, none)
  let styles := fillResult.1
  let backgroundColor := fillResult.2
  let styles :=
    match node.stroke with
    | some stroke =>
      match stroke.fill with
      | some sf =>
        if isInvisibleStroke node backgroundColor then styles
        else upsert (upsert styles "borderColor" (.str sf)) "borderWidth"
          (stroke.thickness.getD .undefined)
      | none => styles
    | none => styles
  let styles := match node.padding with
    | some v => upsert styles "padding" v
    | none => styles
  let styles := match node.gap with
    | some v => upsert styles "gap" v
    | none => styles
  let styles := match node.borderRadius with
    | some v => upsert styles "borderRadius" v
    | none => styles
  let styles := match node.cornerRadius with
    | some v => upsert styles "borderRadius" v
    | none => styles
  let styles := match node.width with
    | some v => upsert styles "width" v
    | none => styles
  match node.height with
  | some v => upsert styles "height" v
  | none => styles

/-- The `mapJustifyContent` table (src/normalizers/pencil.ts lines
217-227); unknown values default to `start`. -/
def mapJustifyContent (value : String) : String :=
  (assocGet [("start", "start"), ("center", "center"), ("end", "end"),
    ("space-between", "space-between"), ("space-around", "space-around")]
    value).getD "start"

/-- The `mapAlignItems` table (src/normalizers/pencil.ts lines 232-241);
unknown values default to `start`. -/
def mapAlignItems (value : String) : String :=
  (assocGet [("start", "start"), ("center", "center"), ("end", "end"),
    ("stretch", "stretch")] value).getD "start"

/-- `extractPencilLayout` (src/normalizers/pencil.ts lines 188-212):
absent/falsy layout yields nothing; otherwise a flex layout whose
direction comes from `horizontal`/`vertical` and whose alignments go
through the mapping tables when truthy. -/
def extractPencilLayout (node : PencilNode) : Option LayoutProperties :=
  match node.layout with
  | none => none
  | some lay =>
    if lay = "" then none
    else
      let direction :=
        if lay = "horizontal" then some "row"
        else if lay = "vertical" then some "column"
        else none
      let justifyContent :=
        match node.justifyContent with
        | some j => if j = "" then none else some (mapJustifyContent j)
        | none => none
      let alignItems :=
        match node.alignItems with
        | some a => if a = "" then none else some (mapAlignItems a)
        | none => none
      some ⟨some "flex", direction, justifyContent, alignItems⟩

/-- `normalizePencilName` (src/normalizers/pencil.ts lines 248-256): strip
the trailing digit run, drop every non-ASCII-alphanumeric character, and
lower-case a leading capital. -/
def normalizePencilName (name : String) : String :=
  let withoutSuffix := (name.data.reverse.dropWhile Char.isDigit).reverse
  let cleaned := withoutSuffix.filter (fun c => c.isAlpha || c.isDigit)
  match cleaned with
  | c :: rest => if c.isUpper then String.mk (c.toLower :: rest) else String.mk (c :: rest)
  | [] => ""

mutual

/-- `normalizePencilNode` (src/normalizers/pencil.ts lines 264-313): a
text node with a truthy name takes `normalizePencilName` for its path
segment, every other node its raw name (or its type when the name is
falsy); independent components (per `isIndependentComponent` on the node
name) are returned without descending into children; otherwise a
non-empty child array is normalized recursively with sibling indices. -/
def normalizePencilNode (idGen : String → String) (node : PencilNode)
    (parentPath : String) (index : ℕ) : StandardElement :=
  match node with
  | .mk nid nty nname ncontent nfontSize nfontWeight nfill nstroke npadding
      ngap nborderRadius ncornerRadius nwidth nheight nlayout njc nai
      nchildren =>
    let node' := PencilNode.mk nid nty nname ncontent nfontSize nfontWeight
      nfill nstroke npadding ngap nborderRadius ncornerRadius nwidth nheight
      nlayout njc nai nchildren
    let nodeName := jsOrStr nname nty
    let normalizedName :=
      if nty = "text" ∧ truthyStr nname then normalizePencilName (nname.getD "")
      else nodeName
    let currentPath := buildPath parentPath normalizedName index
    let elementType := mapPencilTypeToStandard nty
    let isIndependent :=
      if truthyStr nname then isIndependentComponent (nname.getD "") else false
    let codeComponentName :=
      if truthyStr nname then getIndependentComponentCodeName (nname.getD "")
      else none
    let eid := jsOrStr nid (idGen elementType)
    let children : Option (List StandardElement) :=
      if isIndependent then none
      else
        match nchildren with
        | some cs =>
          if cs.length > 0 then
            some (normalizePencilChildren idGen cs currentPath 0)
          else none
        | none => none
    StandardElement.mk eid elementType currentPath ncontent
      (extractPencilStyles node') (extractPencilLayout node') children
      (some ⟨"pencil", nid, some isIndependent, codeComponentName, none⟩)

/-- `normalizePencilNode` mapped over a child array with sibling indices. -/
def normalizePencilChildren (idGen : String → String) (cs : List PencilNode)
    (path : String) (i : ℕ) : List StandardElement :=
  match cs with
  | [] => []
  | c :: rest =>
    normalizePencilNode idGen c path i ::
      normalizePencilChildren idGen rest path (i + 1)

end

/-- `PencilFrame` (src/types.ts lines 368-377). -/
structure PencilFrame where
  id : String
  ty : String
  name : String
  fill : Option String
  cornerRadius : Option JSVal
  gap : Option JSVal
  padding : Option JSVal
  children : List PencilNode

/-- `normalizePencilFrame` (src/normalizers/pencil.ts lines 319-357): the
frame becomes one root container at its bare name with a default vertical
flex layout; its (always-present) child array is normalized with the
frame name as parent path. -/
def normalizePencilFrame (idGen : String → String) (frame : PencilFrame) :
    List StandardElement :=
  let rootStyles : List (String × JSVal) := []
  let rootStyles := match frame.fill with
    | some f => if f ≠ "" then upsert rootStyles "backgroundColor" (.str f)
      else rootStyles
    | none => rootStyles
  let rootStyles := match frame.cornerRadius with
    | some v => upsert rootStyles "borderRadius" v
    | none => rootStyles
  let rootStyles := match frame.gap with
    | some v => upsert rootStyles "gap" v
    | none => rootStyles
  let rootStyles := match frame.padding with
    | some v => upsert rootStyles "padding" v
    | none => rootStyles
  [StandardElement.mk frame.id "container" frame.name none rootStyles
    (some ⟨some "flex", some "column", none, none⟩)
    (some (normalizePencilChildren idGen frame.children frame.name 0))
    (some ⟨"pencil", some frame.id, none, none, none⟩)]

/-! ## src/normalizers/code.ts (implementation-tree normalizer)

The markup AST is modelled shallowly: the node shapes the normalizer
dispatches on (`@babel/types` predicates) become constructors, and shapes
it always skips collapse into `other…` constructors. -/

/-- A JSX tag name (`JSXIdentifier` or `JSXMemberExpression`). -/
inductive JSXTagName where
  | jsxIdent (name : String)
  | jsxMember (obj : JSXTagName) (prop : String)
deriving DecidableEq, Repr

/-- The value of one property of an inline `style` object literal: the
normalizer only reads string and numeric literals
(src/normalizers/code.ts lines 275-279). -/
inductive PropLit where
  | pstr (s : String)
  | pnum (q : ℚ)
  | pother
deriving DecidableEq, Repr

/-- One member of an object literal: an `ObjectProperty` with an
identifier key, or any other member (spread, computed key), skipped. -/
inductive ObjProp where
  | keyed (key : String) (value : PropLit)
  | otherProp
deriving DecidableEq, Repr

/-- The expression forms inspected by the normalizer: member expressions
(`styles.x`, with or without identifier property), template literals
(cooked quasis plus interpolated expressions), logical, conditional and
binary expressions, string/numeric literals, object literals, and
everything else. -/
inductive JSXExpr where
  | member (obj : String) (prop : String)
  | memberOther (obj : String)
  | templateLit (quasis : List String) (exprs : List JSXExpr)
  | logical (left right : JSXExpr)
  | conditional (test consequent alternate : JSXExpr)
  | binary (left right : JSXExpr)
  | strLit (s : String)
  | numLit (q : ℚ)
  | objectLit (props : List ObjProp)
  | otherExpr

/-- A JSX attribute value: a string literal, an expression container, or
another form (skipped by every extractor). -/
inductive JSXAttrValue where
  | valStr (s : String)
  | valExpr (e : JSXExpr)
  | valOther

/-- A JSX attribute: `name (= value)?` with an identifier name, or a
spread attribute (skipped: the source requires `t.isJSXAttribute`). -/
inductive JSXAttr where
  | jsxAttr (name : String) (value : Option JSXAttrValue)
  | spreadAttr

mutual

/-- A JSX element: opening-tag name, attributes, children. -/
inductive JSXElement where
  | mk (openingName : JSXTagName) (attrs : List JSXAttr)
      (children : List JSXChild)

/-- A JSX child: literal text, an expression container, a nested element,
or another form (fragments etc., skipped). -/
inductive JSXChild where
  | text (value : String)
  | exprContainer (e : JSXExpr)
  | childElement (el : JSXElement)
  | otherChild

end

/-- `getTagName` (src/normalizers/code.ts lines 81-98): an identifier's
name; a member expression's object name when that object is an
identifier; `''` otherwise. -/
def getTagName (name : JSXTagName) : String :=
  match name with
  | .jsxIdent n => n
  | .jsxMember (.jsxIdent o) _ => o
  | .jsxMember _ _ => ""

/-- `TAG_TYPE_MAP` (src/normalizers/code.ts lines 48-76). -/
def TAG_TYPE_MAP : List (String × String) :=
  [("span", "text"), ("p", "text"), ("h1", "text"), ("h2", "text"),
   ("h3", "text"), ("h4", "text"), ("h5", "text"), ("h6", "text"),
   ("a", "text"), ("strong", "text"), ("em", "text"), ("small", "text"),
   ("div", "container"), ("section", "container"), ("article", "container"),
   ("main", "container"), ("header", "container"), ("footer", "container"),
   ("nav", "container"), ("aside", "container"), ("button", "button"),
   ("input", "input"), ("textarea", "input"), ("select", "input"),
   ("img", "image"), ("svg", "icon"), ("i", "icon")]

/-- `mapTagToElementType` (src/normalizers/code.ts lines 152-154):
unmapped tags default to `container`. -/
def mapTagToElementType (tagName : String) : String :=
  (assocGet TAG_TYPE_MAP tagName).getD "container"

/-- The per-child collection step of `extractTextContent`
(src/normalizers/code.ts lines 162-178): trimmed non-empty literal text,
string-literal interpolations verbatim, and template literals as their
trimmed joined quasis (pushed even when empty). -/
def collectTextFromChild (child : JSXChild) : List String :=
  match child with
  | .text v => let t := jsTrim v; if t ≠ "" then [t] else []
  | .exprContainer (.strLit s) => [s]
  | .exprContainer (.templateLit quasis _) => [jsTrim (String.join quasis)]
  | _ => []

/-- `extractTextContent` (src/normalizers/code.ts lines 159-183): the
collected texts joined by single spaces, absent when nothing was
collected. -/
def extractTextContent (node : JSXElement) : Option String :=
  match node with
  | .mk _ _ children =>
    let texts := children.flatMap collectTextFromChild
    if texts.length > 0 then some (String.intercalate " " texts) else none

mutual

/-- `extractClassNamesFromExpression` (src/normalizers/code.ts lines
212-240): a member expression contributes its identifier property name;
template literals, logical, conditional and binary expressions are
searched recursively; everything else contributes nothing. -/
def extractClassNamesFromExpression (expr : JSXExpr) : List String :=
  match expr with
  | .member _ prop => [prop]
  | .memberOther _ => []
  | .templateLit _ exprs => extractClassNamesFromExprList exprs
  | .logical l r =>
    extractClassNamesFromExpression l ++ extractClassNamesFromExpression r
  | .conditional _ c a =>
    extractClassNamesFromExpression c ++ extractClassNamesFromExpression a
  | .binary l r =>
    extractClassNamesFromExpression l ++ extractClassNamesFromExpression r
  | _ => []

/-- `extractClassNamesFromExpression` over a template literal's
interpolated expressions, in order. -/
def extractClassNamesFromExprList (exprs : List JSXExpr) : List String :=
  match exprs with
  | [] => []
  | e :: rest =>
    extractClassNamesFromExpression e ++ extractClassNamesFromExprList rest

end

/-- `extractClassNames` (src/normalizers/code.ts lines 189-207): string
literal `className` values split on spaces (empty tokens dropped),
expression values through `extractClassNamesFromExpression`. -/
def extractClassNames (attrs : List JSXAttr) : List String :=
  attrs.flatMap (fun attr =>
    match attr with
    | .jsxAttr name (some (.valStr s)) =>
      if name = "className" then (splitSpace s).filter (fun t => t ≠ "")
      else []
    | .jsxAttr name (some (.valExpr e)) =>
      if name = "className" then extractClassNamesFromExpression e else []
    | _ => [])

/-- JS `Object.assign(target, source)` on the association-list model:
source entries written left to right, later writes winning. -/
def objectAssign (target source : List (String × JSVal)) :
    List (String × JSVal) :=
  source.foldl (fun acc kv => upsert acc kv.1 kv.2) target

/-- The stylesheet map produced by the stylesheet reducer
(`parseCSSModules` output): class name → style properties. -/
abbrev CssMap := List (String × List (String × JSVal))

/-- The per-attribute step of `extractStyleFromProps`
(src/normalizers/code.ts lines 251-284): only a `className` that is an
expression container holding a member expression with identifier property
merges that single class's stylesheet properties; an inline `style` object
literal merges its string-literal values through `convertCSSValue` and its
numeric literals directly. -/
def extractStyleStep (cssStyles : CssMap) (styles : List (String × JSVal))
    (attr : JSXAttr) : List (String × JSVal) :=
  match attr with
  | .spreadAttr => styles
  | .jsxAttr attrName value =>
    let styles :=
      if attrName = "className" then
        match value with
        | some (.valExpr (.member _ className)) =>
          match assocGet cssStyles className with
          | some classStyles => objectAssign styles classStyles
          | none => styles
        | _ => styles
      else styles
    if attrName = "style" then
      match value with
      | some (.valExpr (.objectLit props)) =>
        props.foldl (fun st p =>
          match p with
          | .keyed key (.pstr s) => upsert st key (convertCSSValue s)
          | .keyed key (.pnum q) => upsert st key (.num q)
          | _ => st) styles
      | _ => styles
    else styles

/-- `extractStyleFromProps` (src/normalizers/code.ts lines 245-287). -/
def extractStyleFromProps (attrs : List JSXAttr) (cssStyles : CssMap) :
    List (String × JSVal) :=
  attrs.foldl (extractStyleStep cssStyles) []

/-- `extractLayoutProps` (src/normalizers/code.ts lines 292-318): string
literal `flexDirection` (row else column, setting flex type),
`justifyContent` and `alignItems` attributes; absent when no layout key
was set. -/
def extractLayoutProps (attrs : List JSXAttr) : Option LayoutProperties :=
  let layout := attrs.foldl (fun (ly : LayoutProperties) attr =>
    match attr with
    | .jsxAttr "flexDirection" (some (.valStr v)) =>
      let dir := if v = "row" then "row" else "column"
      { ly with ty := some "flex", direction := some dir }
    | .jsxAttr "justifyContent" (some (.valStr v)) =>
      { ly with justifyContent := some v }
    | .jsxAttr "alignItems" (some (.valStr v)) =>
      { ly with alignItems := some v }
    | _ => ly) ⟨none, none, none, none⟩
  if layout.ty.isSome ∨ layout.direction.isSome ∨
      layout.justifyContent.isSome ∨ layout.alignItems.isSome then
    some layout
  else none

/-- JS `name.charAt(0).toUpperCase() + name.slice(1)`. -/
def capitalizeFirst (s : String) : String :=
  match s.data with
  | [] => ""
  | c :: rest => String.mk (c.toUpper :: rest)

/-- `buildElementPath` (src/normalizers/code.ts lines 327-352): the first
class name (or the tag name when there is none), mapped through
`CODE_CLASS_TO_PENCIL_NAME`; top-level elements capitalize the bare name,
nested elements use `parent > name[index]`. -/
def buildElementPath (tagName : String) (classNames : List String)
    (parentPath : String) (index : ℕ) : String :=
  let className := classNames.headD ""
  let name := if className ≠ "" then className else tagName
  let name := (assocGet CODE_CLASS_TO_PENCIL_NAME name).getD name
  if parentPath = "" then capitalizeFirst name
  else parentPath ++ " > " ++ name ++ "[" ++ toString index ++ "]"

/-- `ExtractionContext` (src/normalizers/types.ts, fields as used by
src/normalizers/code.ts). -/
structure ExtractionContext where
  cssStyles : CssMap
  currentPath : String
  index : ℕ
  parentType : Option String

mutual

/-- `extractJSXElement` (src/normalizers/code.ts lines 358-428): elements
with an empty resolved tag name yield nothing; otherwise content, styles,
layout and the class-name path are extracted, independent components
(tag name in the registry) skip child extraction, and the children field
is set only when at least one child was extracted. -/
def extractJSXElement (idGen : String → String) (node : JSXElement)
    (context : ExtractionContext) (childIndex : ℕ) : Option StandardElement :=
  match node with
  | .mk openingName attrs nchildren =>
    let tagName := getTagName openingName
    if tagName = "" then none
    else
      let content := extractTextContent (.mk openingName attrs nchildren)
      let styles := extractStyleFromProps attrs context.cssStyles
      let layout := extractLayoutProps attrs
      let classNames := extractClassNames attrs
      let currentPath :=
        buildElementPath tagName classNames context.currentPath childIndex
      let isIndependent := isIndependentComponent tagName
      let children :=
        if isIndependent then []
        else extractJSXChildren idGen nchildren
          ⟨context.cssStyles, currentPath, context.index, some tagName⟩ []
      some (StandardElement.mk (idGen tagName) (mapTagToElementType tagName)
        currentPath content styles layout
        (if children.length > 0 then some children else none)
        (some ⟨"code", none, some isIndependent, none, some tagName⟩))

/-- The child-extraction loop of `extractJSXElement` (lines 392-411): only
`JSXElement` children are extracted, each receiving the count of
previously extracted children as its sibling index. -/
def extractJSXChildren (idGen : String → String) (cs : List JSXChild)
    (ctx : ExtractionContext) (acc : List StandardElement) :
    List StandardElement :=
  match cs with
  | [] => acc
  | .childElement c :: rest =>
    (match extractJSXElement idGen c ctx acc.length with
     | some el => extractJSXChildren idGen rest ctx (acc ++ [el])
     | none => extractJSXChildren idGen rest ctx acc)
  | _ :: rest => extractJSXChildren idGen rest ctx acc

end

/-- One `JSXElement` reached by the `@babel/traverse` walk in
`normalizeCodeFile`, together with the two syntactic predicates the
visitor evaluates on it: the AST type of its parent node, and whether
`isInsideHookCallback` (src/normalizers/code.ts lines 104-151, an
ancestor-chain test not representable in this per-element shallow AST)
holds for it. -/
structure TsxCandidate where
  parentType : String
  insideHook : Bool
  element : JSXElement

/-- A parsed markup file as `normalizeCodeFile` consumes it: the
`JSXElement` nodes of the syntax tree in traversal order. -/
structure TsxAst where
  candidates : List TsxCandidate

/-- `normalizeCodeFile` (src/normalizers/code.ts lines 437-489).  The two
external collaborators are passed explicitly: `parseTsx` models the
`@babel/parser` call (`Except.error` models a thrown parse error) and
`parseCss` models `parseCSSModules` (src/normalizers/css-parser.ts), whose
output map is all the rest of the function reads.  The `try/catch` of the
source catches a parse failure, logs it, and returns the empty element
array; a thrown error escaping the function would be `Except.error`, which
this definition never produces. -/
def normalizeCodeFile (parseTsx : String → Except String TsxAst)
    (parseCss : String → CssMap) (idGen : String → String)
    (tsxCode cssCode : String) : Except String (List StandardElement) :=
  let cssStyles := parseCss cssCode
  match parseTsx tsxCode with
  | .error _ => .ok []
  | .ok ast =>
    .ok (ast.candidates.foldl (fun elements cand =>
      if cand.parentType = "ReturnStatement" ∧ cand.insideHook = false then
        match extractJSXElement idGen cand.element
            ⟨cssStyles, "", elements.length, none⟩ elements.length with
        | some el => elements ++ [el]
        | none => elements
      else elements) [])

/-! ## Derived notions used by the theorems -/

mutual

/-- All elements of a canonical subtree (the element and, recursively,
its children), in pre-order. -/
def collectEl (el : StandardElement) : List StandardElement :=
  match el with
  | .mk i t p c s l ch m =>
    StandardElement.mk i t p c s l ch m ::
      (match ch with
       | some cs => collectList cs
       | none => [])

/-- `collectEl` over a list of elements. -/
def collectList (els : List StandardElement) : List StandardElement :=
  match els with
  | [] => []
  | e :: rest => collectEl e ++ collectList rest

end

/-- The element-level confidence score exactly as §4.6.1 of the
specification states it: over the fixed property list minus ignored
properties, skipping properties absent on both sides, each remaining
property is compared with the §4.1 tolerance/color rules (`colorsEqual`
for the color-family string values, `valuesEqual` with the property hint —
hence fontWeight coercion and case-insensitive strings — otherwise, i.e.
the dispatch of `style.compareProperty`); the score is the matched
fraction, `1` when nothing was comparable. -/
def specElementConfidence (pencil code : StandardElement)
    (options : ComparisonOptions) : ℚ :=
  let ignoreProps := options.ignoreProperties.getD []
  let tolerance := options.tolerance.getD 0
  let colorTolerance := options.colorTolerance.getD 0
  let comparable := propertiesToCompare.filter (fun prop =>
    ¬ ignoreProps.contains prop ∧
    ¬ (propOf pencil prop = .undefined ∧ propOf code prop = .undefined))
  if comparable.isEmpty then 1
  else
    ((comparable.countP (fun prop =>
        style.compareProperty prop (propOf pencil prop) (propOf code prop)
          tolerance colorTolerance) : ℚ) / (comparable.length : ℚ))

/-- Style resolution exactly as the claim (spec §4.3) states it: every
class referenced by a `className` attribute — extracted recursively from
template-literal, logical, conditional and binary expressions alike — has
its stylesheet properties merged into the element's style map, and inline
`style` literal values are merged afterwards. -/
def specStyleFromProps (attrs : List JSXAttr) (cssStyles : CssMap) :
    List (String × JSVal) :=
  let classes := extractClassNames attrs
  let fromClasses := classes.foldl (fun acc c =>
    match assocGet cssStyles c with
    | some classStyles => objectAssign acc classStyles
    | none => acc) []
  attrs.foldl (fun st attr =>
    match attr with
    | .jsxAttr "style" (some (.valExpr (.objectLit props))) =>
      props.foldl (fun st p =>
        match p with
        | .keyed key (.pstr s) => upsert st key (convertCSSValue s)
        | .keyed key (.pnum q) => upsert st key (.num q)
        | _ => st) st
    | _ => st) fromClasses

/-- Whether an element's metadata marks it as an opaque/independent
component. -/
def metaIsIndep (el : StandardElement) : Bool :=
  match el.metadata with
  | some m => decide (m.isIndependentComponent = some true)
  | none => false

/-- A className expression of one of the compound shapes the spec lists
for style resolution: template-literal interpolation, logical, ternary, or
binary expression. -/
def isComplexClassExpr : JSXExpr → Bool
  | .templateLit _ _ => true
  | .logical _ _ => true
  | .conditional _ _ _ => true
  | .binary _ _ => true
  | _ => false

/-! ## Concrete fixtures used by counterexamples and witnesses -/

/-- A deterministic id generator standing in for `generateId`. -/
def idGenX : String → String := fun prefx => prefx ++ "_id"

/-- A design-side text element whose only comparable property is
`fontWeight: 'normal'`. -/
def C2pencil : StandardElement :=
  .mk "p1" "text" "Home > title[0]" none [("fontWeight", .str "normal")]
    none none none

/-- An implementation-side text element whose only comparable property is
`fontWeight: 400`. -/
def C2code : StandardElement :=
  .mk "c1" "text" "Home > title[0]" none [("fontWeight", .num 400)]
    none none none

/-- A design element at path `Home > welcomeMsg[0]` (alias-mapped to
`welcomeMessage` by `PENCIL_TO_CODE_NAME`). -/
def C3pencil : StandardElement :=
  .mk "p1" "text" "Home > welcomeMsg[0]" none [] none none none

/-- An implementation element at path `Home > welcomeMessage[0]`. -/
def C3code : StandardElement :=
  .mk "c1" "text" "Home > welcomeMessage[0]" none [] none none none

/-- A design node of type `line` named `divider1`. -/
def C6lineDivider1 : PencilNode :=
  .mk none "line" (some "divider1") none none none none none none none
    none none none none none none none none

/-- A design node of type `text` named `divider1`. -/
def C6textDivider1 : PencilNode :=
  .mk none "text" (some "divider1") none none none none none none none
    none none none none none none none none

/-- A design node named `settingsButton` (a registered independent
component) that carries a child node. -/
def C4pencilNode : PencilNode :=
  .mk (some "n1") "frame" (some "settingsButton") none none none none none
    none none none none none none none none none
    (some [.mk none "text" (some "inner") (some "hi") none none none none
      none none none none none none none none none none])

/-- A markup element `<settingsButton><span>x</span></settingsButton>`
whose tag is in the independent-component registry (the registry is keyed
by design-side names, which is what `extractJSXElement` checks tags
against), with a nested child. -/
def C4jsxNode : JSXElement :=
  .mk (.jsxIdent "settingsButton") []
    [.childElement (.mk (.jsxIdent "span") [] [.text "x"])]

/-- The element extracted from `C4jsxNode` (an empty stylesheet map, root
context). -/
def C4jsxRoot : StandardElement :=
  (extractJSXElement idGenX C4jsxNode ⟨[], "", 0, none⟩ 0).getD
    (StandardElement.mk "" "" "" none [] none none none)

/-- The className expression `` `${styles.a} ${styles.b}` ``. -/
def C7expr : JSXExpr :=
  .templateLit ["", " ", ""] [.member "styles" "a", .member "styles" "b"]

/-- An attribute list whose only entry is the template-literal-valued
`className`. -/
def C7attrs : List JSXAttr :=
  [.jsxAttr "className" (some (.valExpr C7expr))]

/-- A stylesheet map defining both referenced classes. -/
def C7css : CssMap :=
  [("a", [("padding", .num 8)]), ("b", [("gap", .num 4)])]

/-- A parser stub that fails on every input, modelling a thrown
`@babel/parser` syntax error. -/
def C8failingParse : String → Except String TsxAst :=
  fun _ => .error "SyntaxError: Unexpected token"

/-- A stylesheet parser stub returning an empty map. -/
def C8emptyCss : String → CssMap := fun _ => []

/-! ## Helper lemmas -/

/-- `valuesEqual` on two plain numbers: equality wins, the fontWeight hint
compares exact integers (ignoring the tolerance), and any other hint uses
the tolerance band. -/
theorem valuesEqual_num_num (a b t : ℚ) (prop : Option String) :
    valuesEqual (.num a) (.num b) t prop =
      (if a = b then true
       else if prop = some "fontWeight" then false
       else decide (jsAbs (a - b) ≤ t)) := by
  unfold valuesEqual
  by_cases hab : a = b <;> by_cases hp : prop = some "fontWeight" <;>
    simp [hab, hp, jsEq, isNullish, fontWeightNum]

/-- The comparable-property predicate of §4.6.1: not globally ignored and
not `undefined` on both sides. -/
def comparablePred (pencil code : StandardElement)
    (options : ComparisonOptions) (prop : String) : Bool :=
  !((options.ignoreProperties.getD []).contains prop) &&
    !(decide (propOf pencil prop = .undefined ∧ propOf code prop = .undefined))

/-- The accumulator of `compareElements`'s property loop: the match count
grows by the matches among the comparable properties processed, the total
count by their number. -/
theorem compareElements_foldl_spec (pencil code : StandardElement)
    (options : ComparisonOptions) (props : List String)
    (pm0 : List (String × Bool)) (mc0 tc0 : ℕ) :
    (props.foldl (compareElementsStep pencil code options) (pm0, mc0, tc0)).2.1 =
      mc0 + (props.filter (comparablePred pencil code options)).countP
        (fun prop => element.compareProperty prop (propOf pencil prop)
          (propOf code prop) options) ∧
    (props.foldl (compareElementsStep pencil code options) (pm0, mc0, tc0)).2.2 =
      tc0 + (props.filter (comparablePred pencil code options)).length := by
  induction props generalizing pm0 mc0 tc0 with
  | nil => simp
  | cons prop rest ih =>
    by_cases hign : prop ∈ options.ignoreProperties.getD []
    · simpa [List.foldl_cons, compareElementsStep, hign, comparablePred]
        using ih pm0 mc0 tc0
    · by_cases hundef : propOf pencil prop = .undefined ∧ propOf code prop = .undefined
      · simpa [List.foldl_cons, compareElementsStep, hign, hundef,
          comparablePred] using ih pm0 mc0 tc0
      · have step_eq : compareElementsStep pencil code options (pm0, mc0, tc0)
            prop =
            (upsert pm0 prop (element.compareProperty prop
              (propOf pencil prop) (propOf code prop) options),
             mc0 + (if element.compareProperty prop (propOf pencil prop)
               (propOf code prop) options then 1 else 0),
             tc0 + 1) := by
          simp [compareElementsStep, hign, hundef]
        have hcp : comparablePred pencil code options prop = true := by
          simp [comparablePred, hign, hundef]
        rw [List.foldl_cons, step_eq]
        obtain ⟨ihl, ihr⟩ := ih (upsert pm0 prop _) _ _
        refine ⟨?_, ?_⟩
        · rw [ihl, List.filter_cons_of_pos hcp, List.countP_cons]
          by_cases hm : element.compareProperty prop (propOf pencil prop)
              (propOf code prop) options = true <;> (simp [hm]; try omega)
        · rw [ihr, List.filter_cons_of_pos hcp, List.length_cons]
          omega

/-- The root of a normalized design node satisfies the opaque-component
invariant: when its metadata marks it independent, its children field is
absent. -/
theorem normalizePencilNode_root_invariant (idGen : String → String)
    (node : PencilNode) (pp : String) (i : ℕ)
    (h : metaIsIndep (normalizePencilNode idGen node pp i) = true) :
    (normalizePencilNode idGen node pp i).children = none := by
  cases node with
  | mk nid nty nname nc nfs nfw nfill nstroke npad ngap nbr ncr nw nh nlay
      njc nai nch =>
    rw [normalizePencilNode.eq_def] at h ⊢
    dsimp only [metaIsIndep, StandardElement.metadata,
      StandardElement.children] at h ⊢
    simp only [Option.some.injEq, decide_eq_true_eq] at h
    rw [if_pos h]
/-- The children field of a normalized design node: absent, or the
normalization of the node's child array rooted at the element's own
path. -/
theorem normalizePencilNode_children_cases (idGen : String → String)
    (node : PencilNode) (pp : String) (i : ℕ) :
    (normalizePencilNode idGen node pp i).children = none ∨
    ∃ cs, node.children = some cs ∧
      (normalizePencilNode idGen node pp i).children =
        some (normalizePencilChildren idGen cs
          (normalizePencilNode idGen node pp i).path 0) := by
  cases node with
  | mk nid nty nname nc nfs nfw nfill nstroke npad ngap nbr ncr nw nh nlay
      njc nai nch =>
    rw [normalizePencilNode.eq_def]
    dsimp only [StandardElement.children, StandardElement.path,
      PencilNode.children]
    by_cases hI : (if truthyStr nname = true then
        isIndependentComponent (nname.getD "") else false) = true
    · left; rw [if_pos hI]
    · rw [if_neg hI]
      cases nch with
      | none => left; rfl
      | some cs =>
        dsimp only
        by_cases hlen : cs.length > 0
        · right
          exact ⟨cs, rfl, by rw [if_pos hlen]⟩
        · left; rw [if_neg hlen]
/-- `collectEl` unfolded: an element's subtree is itself followed by its
children's subtrees. -/
theorem collectEl_eq (el : StandardElement) :
    collectEl el = el ::
      (match el.children with
       | some cs => collectList cs
       | none => []) := by
  cases el
  rw [collectEl.eq_def]
  rfl
/-- Membership in a collected element list decomposes into membership in
one member's subtree. -/
theorem mem_collectList {el : StandardElement} {els : List StandardElement} :
    el ∈ collectList els ↔ ∃ e ∈ els, el ∈ collectEl e := by
  induction els with
  | nil => simp [collectList]
  | cons e rest ih => simp [collectList, ih]
/-- Every element produced by the child-extraction loop comes from the
accumulator or from extracting one of the element children. -/
theorem mem_extractJSXChildren (idGen : String → String)
    (cs : List JSXChild) (ctx : ExtractionContext) :
    ∀ (acc : List StandardElement) (el : StandardElement),
    el ∈ extractJSXChildren idGen cs ctx acc →
    el ∈ acc ∨ ∃ c : JSXElement, JSXChild.childElement c ∈ cs ∧
      ∃ j, extractJSXElement idGen c ctx j = some el := by
  induction cs with
  | nil =>
    intro acc el h
    rw [extractJSXChildren] at h
    exact Or.inl h
  | cons ch rest ih =>
    intro acc el h
    rw [extractJSXChildren.eq_def] at h
    cases ch with
    | childElement c =>
      dsimp only at h
      cases hx : extractJSXElement idGen c ctx acc.length with
      | some e2 =>
        rw [hx] at h
        dsimp only at h
        rcases ih _ _ h with hacc | ⟨c2, hc2, j, hj⟩
        · rcases List.mem_append.mp hacc with h1 | h2
          · exact Or.inl h1
          · right
            refine ⟨c, List.mem_cons_self _ _, acc.length, ?_⟩
            rw [hx]
            simp at h2
            rw [h2]
        · exact Or.inr ⟨c2, List.mem_cons_of_mem _ hc2, j, hj⟩
      | none =>
        rw [hx] at h
        dsimp only at h
        rcases ih _ _ h with hacc | ⟨c2, hc2, j, hj⟩
        · exact Or.inl hacc
        · exact Or.inr ⟨c2, List.mem_cons_of_mem _ hc2, j, hj⟩
    | text v =>
      dsimp only at h
      rcases ih _ _ h with hacc | ⟨c2, hc2, j, hj⟩
      · exact Or.inl hacc
      · exact Or.inr ⟨c2, List.mem_cons_of_mem _ hc2, j, hj⟩
    | exprContainer e =>
      dsimp only at h
      rcases ih _ _ h with hacc | ⟨c2, hc2, j, hj⟩
      · exact Or.inl hacc
      · exact Or.inr ⟨c2, List.mem_cons_of_mem _ hc2, j, hj⟩
    | otherChild =>
      dsimp only at h
      rcases ih _ _ h with hacc | ⟨c2, hc2, j, hj⟩
      · exact Or.inl hacc
      · exact Or.inr ⟨c2, List.mem_cons_of_mem _ hc2, j, hj⟩
/-- The root extracted from a markup element satisfies the
opaque-component invariant. -/
theorem extractJSXElement_root_invariant (idGen : String → String)
    (jsx : JSXElement) (ctx : ExtractionContext) (ci : ℕ)
    (root : StandardElement)
    (hx : extractJSXElement idGen jsx ctx ci = some root)
    (h : metaIsIndep root = true) : root.children = none := by
  cases jsx with
  | mk openingName attrs nchildren =>
    rw [extractJSXElement.eq_def] at hx
    dsimp only at hx
    by_cases htag : getTagName openingName = ""
    · rw [if_pos htag] at hx
      exact absurd hx (by simp)
    · rw [if_neg htag] at hx
      rw [Option.some.injEq] at hx
      rw [← hx] at h ⊢
      dsimp only [metaIsIndep, StandardElement.metadata,
        StandardElement.children] at h ⊢
      simp only [Option.some.injEq, decide_eq_true_eq] at h
      rw [h]
      simp
/-- A member of an extracted markup subtree is the root, or lies in the
subtree extracted from a strictly smaller child element. -/
theorem mem_collect_extractJSXElement (idGen : String → String)
    (jsx : JSXElement) (ctx : ExtractionContext) (ci : ℕ)
    (root el : StandardElement)
    (hx : extractJSXElement idGen jsx ctx ci = some root)
    (hmem : el ∈ collectEl root) :
    el = root ∨
    ∃ c : JSXElement, sizeOf c < sizeOf jsx ∧
      ∃ (ctx' : ExtractionContext) (j : ℕ) (e' : StandardElement),
        extractJSXElement idGen c ctx' j = some e' ∧ el ∈ collectEl e' := by
  rw [collectEl_eq] at hmem
  rcases List.mem_cons.mp hmem with heq | hrest
  · exact Or.inl heq
  · cases jsx with
    | mk openingName attrs nchildren =>
      rw [extractJSXElement.eq_def] at hx
      dsimp only at hx
      by_cases htag : getTagName openingName = ""
      · rw [if_pos htag] at hx
        exact absurd hx (by simp)
      · rw [if_neg htag] at hx
        rw [Option.some.injEq] at hx
        rw [← hx] at hrest
        dsimp only [StandardElement.children] at hrest
        by_cases hI : isIndependentComponent (getTagName openingName) = true
        · rw [if_pos hI] at hrest
          simp at hrest
        · rw [if_neg hI] at hrest
          by_cases hlen : (extractJSXChildren idGen nchildren
              ⟨ctx.cssStyles,
                buildElementPath (getTagName openingName)
                  (extractClassNames attrs) ctx.currentPath ci,
                ctx.index, some (getTagName openingName)⟩ []).length > 0
          · rw [if_pos hlen] at hrest
            obtain ⟨e, he, hel⟩ := mem_collectList.mp hrest
            rcases mem_extractJSXChildren idGen nchildren _ [] e he with
              habs | ⟨c, hc, j, hj⟩
            · simp at habs
            · right
              refine ⟨c, ?_, _, j, e, hj, hel⟩
              have h1 : sizeOf (JSXChild.childElement c) < sizeOf nchildren :=
                List.sizeOf_lt_of_mem hc
              have h2 : 1 + sizeOf c ≤ sizeOf (JSXChild.childElement c) := by
                simp
              have h3 : sizeOf nchildren <
                  sizeOf (JSXElement.mk openingName attrs nchildren) := by
                simp
              omega
          · rw [if_neg hlen] at hrest
            simp at hrest
/-- Every member of a normalized child list is the normalization of one of
the child nodes. -/
theorem mem_normalizePencilChildren {el : StandardElement}
    (idGen : String → String) (cs : List PencilNode) (path : String) :
    ∀ i, el ∈ normalizePencilChildren idGen cs path i →
    ∃ c ∈ cs, ∃ j, el = normalizePencilNode idGen c path j := by
  induction cs with
  | nil => intro i h; rw [normalizePencilChildren] at h; simp at h
  | cons c rest ih =>
    intro i h
    rw [normalizePencilChildren] at h
    rcases List.mem_cons.mp h with heq | hrest
    · exact ⟨c, List.mem_cons_self _ _, i, heq⟩
    · obtain ⟨c2, hc2, j, hj⟩ := ih (i + 1) hrest
      exact ⟨c2, List.mem_cons_of_mem _ hc2, j, hj⟩
/-- A member of a normalized design subtree is the root, or lies in the
subtree of the normalization of a strictly smaller child node. -/
theorem mem_collect_normalizePencilNode (idGen : String → String)
    (node : PencilNode) (pp : String) (i : ℕ) (el : StandardElement)
    (hmem : el ∈ collectEl (normalizePencilNode idGen node pp i)) :
    el = normalizePencilNode idGen node pp i ∨
    ∃ c : PencilNode, sizeOf c < sizeOf node ∧ ∃ (path2 : String) (j : ℕ),
      el ∈ collectEl (normalizePencilNode idGen c path2 j) := by
  rw [collectEl_eq] at hmem
  rcases List.mem_cons.mp hmem with heq | hrest
  · exact Or.inl heq
  · rcases normalizePencilNode_children_cases idGen node pp i with hnone | ⟨cs, hcs, hsome⟩
    · rw [hnone] at hrest
      simp at hrest
    · rw [hsome] at hrest
      obtain ⟨e, he, hel⟩ := mem_collectList.mp hrest
      obtain ⟨c, hc, j, hj⟩ := mem_normalizePencilChildren idGen cs _ 0 he
      right
      refine ⟨c, ?_, _, j, hj ▸ hel⟩
      have h1 : sizeOf c < sizeOf cs := List.sizeOf_lt_of_mem hc
      have h2 : sizeOf cs < sizeOf node := by
        cases node with
        | mk nid nty nname nc nfs nfw nfill nstroke npad ngap nbr ncr nw nh
            nlay njc nai nch =>
          simp only [PencilNode.children] at hcs
          subst hcs
          simp
          omega
      omega
/-- The opaque-component invariant over an entire normalized design
subtree, by strong induction on the node size. -/
theorem pencil_opaque_aux :
    ∀ (n : ℕ) (node : PencilNode), sizeOf node ≤ n →
    ∀ (idGen : String → String) (pp : String) (i : ℕ) (el : StandardElement),
      el ∈ collectEl (normalizePencilNode idGen node pp i) →
      metaIsIndep el = true → el.children = none := by
  intro n
  induction n with
  | zero =>
    intro node hn
    exfalso
    cases node
    simp_arith at hn
  | succ n ih =>
    intro node hn idGen pp i el hmem hind
    rcases mem_collect_normalizePencilNode idGen node pp i el hmem with
      heq | ⟨c, hsz, path2, j, hmem2⟩
    · rw [heq] at hind ⊢
      exact normalizePencilNode_root_invariant idGen node pp i hind
    · exact ih c (by omega) idGen path2 j el hmem2 hind
/-- The opaque-component invariant over an entire extracted markup
subtree, by strong induction on the element size. -/
theorem jsx_opaque_aux :
    ∀ (n : ℕ) (jsx : JSXElement), sizeOf jsx ≤ n →
    ∀ (idGen : String → String) (ctx : ExtractionContext) (ci : ℕ)
      (root el : StandardElement),
      extractJSXElement idGen jsx ctx ci = some root →
      el ∈ collectEl root → metaIsIndep el = true → el.children = none := by
  intro n
  induction n with
  | zero =>
    intro jsx hn
    exfalso
    cases jsx
    simp_arith at hn
  | succ n ih =>
    intro jsx hn idGen ctx ci root el hx hmem hind
    rcases mem_collect_extractJSXElement idGen jsx ctx ci root el hx hmem with
      heq | ⟨c, hsz, ctx2, j, e2, hx2, hmem2⟩
    · rw [heq] at hind ⊢
      exact extractJSXElement_root_invariant idGen jsx ctx ci root hx hind
    · exact ih c (by omega) idGen ctx2 j e2 el hx2 hmem2 hind
/-- Every element is a member of its own collected subtree. -/
theorem self_mem_collectEl (el : StandardElement) : el ∈ collectEl el := by
  rw [collectEl_eq]
  exact List.mem_cons_self _ _

/-! ## Claim theorems -/

/-- C1: the computed summary of a comparison run — `matchedElements`
counts matched pairs with confidence ≥ ½; the missing/extra/style-diff
counts keep only error severity; the match rate is
`matched / total × 100` with `100` for an empty run; and the overall
status is `fail` exactly when some missing element, style diff or extra
element has error severity, `warning` exactly when there is none of those
but the extra list is non-empty, and `pass` otherwise. -/
theorem C1_summary_computation (r : ComparisonResult)
    (options : ComparisonOptions) :
    (calculateSummary r options).totalElements =
      r.matches'.length + r.missingInCode.length + r.extraInCode.length ∧
    (calculateSummary r options).matchedElements =
      r.matches'.countP (fun m => decide ((1 : ℚ)/2 ≤ m.confidence)) ∧
    (calculateSummary r options).missingElements =
      r.missingInCode.countP (fun d => decide (d.severity = "error")) ∧
    (calculateSummary r options).extraElements =
      r.extraInCode.countP (fun d => decide (d.severity = "error")) ∧
    (calculateSummary r options).styleDiffs =
      r.styleDiffs.countP (fun d => decide (d.severity = "error")) ∧
    (calculateSummary r options).matchRate =
      (if (calculateSummary r options).totalElements = 0 then (100 : ℚ)
       else ((calculateSummary r options).matchedElements : ℚ) /
         ((calculateSummary r options).totalElements : ℚ) * 100) ∧
    ((calculateSummary r options).status = "fail" ↔
      ((∃ d ∈ r.missingInCode, d.severity = "error") ∨
       (∃ d ∈ r.styleDiffs, d.severity = "error") ∨
       (∃ d ∈ r.extraInCode, d.severity = "error"))) ∧
    ((calculateSummary r options).status = "warning" ↔
      (¬ ((∃ d ∈ r.missingInCode, d.severity = "error") ∨
          (∃ d ∈ r.styleDiffs, d.severity = "error") ∨
          (∃ d ∈ r.extraInCode, d.severity = "error")) ∧
        r.extraInCode ≠ [])) ∧
    ((calculateSummary r options).status = "pass" ↔
      (¬ ((∃ d ∈ r.missingInCode, d.severity = "error") ∨
          (∃ d ∈ r.styleDiffs, d.severity = "error") ∨
          (∃ d ∈ r.extraInCode, d.severity = "error")) ∧
        r.extraInCode = [])) := by
  have hM : 0 < (r.missingInCode.filter
        (fun d => decide (d.severity = "error"))).length ↔
      ∃ d ∈ r.missingInCode, d.severity = "error" := by
    rw [← List.countP_eq_length_filter, List.countP_pos_iff]
    simp
  have hS : 0 < (r.styleDiffs.filter
        (fun d => decide (d.severity = "error"))).length ↔
      ∃ d ∈ r.styleDiffs, d.severity = "error" := by
    rw [← List.countP_eq_length_filter, List.countP_pos_iff]
    simp
  have hE : 0 < (r.extraInCode.filter
        (fun d => decide (d.severity = "error"))).length ↔
      ∃ d ∈ r.extraInCode, d.severity = "error" := by
    rw [← List.countP_eq_length_filter, List.countP_pos_iff]
    simp
  refine ⟨rfl, ?_, ?_, ?_, ?_, ?_, ?_, ?_, ?_⟩
  · simp [calculateSummary, List.countP_eq_length_filter]
  · simp [calculateSummary, List.countP_eq_length_filter]
  · simp [calculateSummary, List.countP_eq_length_filter]
  · simp [calculateSummary, List.countP_eq_length_filter]
  · rcases Nat.eq_zero_or_pos
        (r.matches'.length + r.missingInCode.length + r.extraInCode.length)
      with hz | hp
    · simp [calculateSummary, hz]
    · simp [calculateSummary, hp, Nat.pos_iff_ne_zero.mp hp]
  · simp only [calculateSummary, gt_iff_lt, hM, hS, hE]
    rcases eq_or_ne r.extraInCode [] with hD | hD
    · by_cases hA : ∃ d ∈ r.missingInCode, d.severity = "error" <;>
        by_cases hB : ∃ d ∈ r.styleDiffs, d.severity = "error" <;>
        simp [hA, hB, hD]
    · by_cases hA : ∃ d ∈ r.missingInCode, d.severity = "error" <;>
        by_cases hB : ∃ d ∈ r.styleDiffs, d.severity = "error" <;>
        by_cases hC : ∃ d ∈ r.extraInCode, d.severity = "error" <;>
        simp [hA, hB, hC, hD, List.length_pos]
  · simp only [calculateSummary, gt_iff_lt, hM, hS, hE]
    rcases eq_or_ne r.extraInCode [] with hD | hD
    · by_cases hA : ∃ d ∈ r.missingInCode, d.severity = "error" <;>
        by_cases hB : ∃ d ∈ r.styleDiffs, d.severity = "error" <;>
        simp [hA, hB, hD]
    · by_cases hA : ∃ d ∈ r.missingInCode, d.severity = "error" <;>
        by_cases hB : ∃ d ∈ r.styleDiffs, d.severity = "error" <;>
        by_cases hC : ∃ d ∈ r.extraInCode, d.severity = "error" <;>
        simp [hA, hB, hC, hD, List.length_pos]
  · simp only [calculateSummary, gt_iff_lt, hM, hS, hE]
    rcases eq_or_ne r.extraInCode [] with hD | hD
    · by_cases hA : ∃ d ∈ r.missingInCode, d.severity = "error" <;>
        by_cases hB : ∃ d ∈ r.styleDiffs, d.severity = "error" <;>
        simp [hA, hB, hD]
    · by_cases hA : ∃ d ∈ r.missingInCode, d.severity = "error" <;>
        by_cases hB : ∃ d ∈ r.styleDiffs, d.severity = "error" <;>
        by_cases hC : ∃ d ∈ r.extraInCode, d.severity = "error" <;>
        simp [hA, hB, hC, hD, List.length_pos]

/-- C2 (counterexample): the claim says element-level confidence uses the
§4.1 rules including the fontWeight `normal → 400` coercion; but for a
pair whose only comparable property is `fontWeight: 'normal'` versus
`fontWeight: 400`, `compareElements` scores confidence `0` while the §4.1
rules (as `specElementConfidence` states the claim) score `1`. -/
theorem C2_counterexample :
    (compareElements C2pencil C2code ComparisonOptions.empty).confidence = 0 ∧
    specElementConfidence C2pencil C2code ComparisonOptions.empty = 1 ∧
    valuesEqual (.str "normal") (.num 400) 0 (some "fontWeight") = true := by
  refine ⟨?_, ?_, ?_⟩
  · simp [compareElements, compareElementsStep, propertiesToCompare, propOf,
      C2pencil, C2code, ComparisonOptions.empty, element.compareProperty,
      assocGet, upsert, jsEq, StandardElement.content, StandardElement.styles]
  · simp [specElementConfidence, propertiesToCompare, propOf, C2pencil,
      C2code, ComparisonOptions.empty, style.compareProperty, valuesEqual,
      assocGet, upsert, jsEq, isNullish, fontWeightNum, parseIntJS,
      StandardElement.content, StandardElement.styles]
  · simp [valuesEqual, jsEq, isNullish, fontWeightNum, parseIntJS]

/-- C2 (amended): the confidence of `compareElements` is the matched
fraction of the comparable properties (fixed list minus ignored, skipping
both-`undefined` properties; `1` when nothing is comparable), where each
property is judged by the simplified rule `element.compareProperty` —
not by the §4.1 `valuesEqual`/`colorsEqual` rules. -/
theorem C2_confidence_simplified_rule (pencil code : StandardElement)
    (options : ComparisonOptions) :
    (compareElements pencil code options).confidence =
      (if propertiesToCompare.filter (comparablePred pencil code options) = []
       then (1 : ℚ)
       else ((propertiesToCompare.filter
            (comparablePred pencil code options)).countP
            (fun prop => element.compareProperty prop (propOf pencil prop)
              (propOf code prop) options) : ℚ) /
          ((propertiesToCompare.filter
            (comparablePred pencil code options)).length : ℚ)) := by
  obtain ⟨hmc, htc⟩ := compareElements_foldl_spec pencil code options
    propertiesToCompare [] 0 0
  show (if (propertiesToCompare.foldl
        (compareElementsStep pencil code options) ([], 0, 0)).2.2 > 0 then
      ((propertiesToCompare.foldl
        (compareElementsStep pencil code options) ([], 0, 0)).2.1 : ℚ) /
      ((propertiesToCompare.foldl
        (compareElementsStep pencil code options) ([], 0, 0)).2.2 : ℚ)
    else 1) = _
  rw [hmc, htc]
  by_cases hnil :
      propertiesToCompare.filter (comparablePred pencil code options) = []
  · simp [hnil]
  · have hlen : 0 < (propertiesToCompare.filter
        (comparablePred pencil code options)).length :=
      List.length_pos.mpr hnil
    simp [hnil, hlen, Nat.pos_iff_ne_zero.mp hlen]

/-- C3 (code evaluated at the failing input): for the design forest
`[C3pencil]` (path `Home > welcomeMsg[0]`) against the implementation
forest `[C3code]` (path `Home > welcomeMessage[0]`), the alias alignment
pairs the two elements — yet the same implementation element `c1` is also
recorded in `extraInCode`, because the extra branch never consults the
matched-id set; the summary consequently reports 2 total elements and a
`warning` status for a perfectly matched pair. -/
theorem C3_matched_element_also_extra :
    (compareStructures [C3pencil] [C3code]
      ComparisonOptions.empty).matches'.map (fun m => m.code.id) = ["c1"] ∧
    (compareStructures [C3pencil] [C3code]
      ComparisonOptions.empty).extraInCode.map (fun d => d.element.id) =
      ["c1"] ∧
    (compareStructures [C3pencil] [C3code]
      ComparisonOptions.empty).missingInCode = [] ∧
    (compareStructures [C3pencil] [C3code]
      ComparisonOptions.empty).summary.totalElements = 2 ∧
    (compareStructures [C3pencil] [C3code]
      ComparisonOptions.empty).summary.status = "warning" := by
  refine ⟨rfl, rfl, rfl, rfl, rfl⟩

/-- C4: every canonical element produced by either normalizer — any
element of the subtree returned by the design-side `normalizePencilNode`,
and any element of the subtree returned by the implementation-side
`extractJSXElement` — whose metadata marks it as an independent (opaque)
component has an absent `children` field. -/
theorem C4_opaque_components_children_absent :
    (∀ (idGen : String → String) (node : PencilNode) (pp : String) (i : ℕ)
        (el : StandardElement),
        el ∈ collectEl (normalizePencilNode idGen node pp i) →
        metaIsIndep el = true → el.children = none) ∧
    (∀ (idGen : String → String) (jsx : JSXElement)
        (ctx : ExtractionContext) (ci : ℕ) (root el : StandardElement),
        extractJSXElement idGen jsx ctx ci = some root →
        el ∈ collectEl root → metaIsIndep el = true → el.children = none) :=
  ⟨fun idGen node pp i el hmem hind =>
      pencil_opaque_aux (sizeOf node) node le_rfl idGen pp i el hmem hind,
    fun idGen jsx ctx ci root el hx hmem hind =>
      jsx_opaque_aux (sizeOf jsx) jsx le_rfl idGen ctx ci root el hx hmem
        hind⟩

/-- C4 (witness): the design node `settingsButton` (which carries a child
in the source data) normalizes to an element marked independent with no
children; likewise the extracted markup element with that tag. -/
theorem C4_opaque_components_children_absent_witness :
    (normalizePencilNode idGenX C4pencilNode "" 0 ∈
        collectEl (normalizePencilNode idGenX C4pencilNode "" 0) ∧
      metaIsIndep (normalizePencilNode idGenX C4pencilNode "" 0) = true ∧
      (normalizePencilNode idGenX C4pencilNode "" 0).children = none) ∧
    (extractJSXElement idGenX C4jsxNode ⟨[], "", 0, none⟩ 0 =
        some C4jsxRoot ∧
      metaIsIndep C4jsxRoot = true ∧ C4jsxRoot.children = none) :=
  ⟨⟨self_mem_collectEl _, rfl,
    C4_opaque_components_children_absent.1 idGenX C4pencilNode "" 0
      (normalizePencilNode idGenX C4pencilNode "" 0)
      (self_mem_collectEl _) rfl⟩,
   ⟨rfl, rfl,
    C4_opaque_components_children_absent.2 idGenX C4jsxNode ⟨[], "", 0, none⟩
      0 C4jsxRoot C4jsxRoot rfl (self_mem_collectEl _) rfl⟩⟩

/-- C5 (counterexample): with the comparator's name-mapping function
`mapPencilNameToCode` as the alias function — which has no `divider1` or
`divider2` table entry and performs no numeric-suffix stripping —
`arePathsEquivalentByName` returns `false` for both design paths against
`header > divider[0]`, and the mapping function leaves both names
unchanged. -/
theorem C5_counterexample_no_suffix_stripping :
    arePathsEquivalentByName "header > divider1[0]" "header > divider[0]"
      (some mapPencilNameToCode) = false ∧
    arePathsEquivalentByName "header > divider2[1]" "header > divider[0]"
      (some mapPencilNameToCode) = false ∧
    mapPencilNameToCode "divider1" = "divider1" ∧
    mapPencilNameToCode "divider2" = "divider2" := by
  refine ⟨rfl, rfl, rfl, rfl⟩

/-- C5 (amended): numeric-suffix stripping is not part of
`mapPencilNameToCode`; it is the separate helper `stripNumericSuffix`, and
only with that helper as the alias function does
`arePathsEquivalentByName` return `true` for each design path against
`header > divider[0]` independently. -/
theorem C5_alias_function_behavior :
    arePathsEquivalentByName "header > divider1[0]" "header > divider[0]"
      (some stripNumericSuffix) = true ∧
    arePathsEquivalentByName "header > divider2[1]" "header > divider[0]"
      (some stripNumericSuffix) = true ∧
    stripNumericSuffix "divider1" = "divider" ∧
    stripNumericSuffix "divider2" = "divider" := by
  refine ⟨rfl, rfl, rfl, rfl⟩

/-- C6 (counterexample): a non-text design node named `divider1` (type
`line`) keeps its trailing digit in the path segment produced by
`normalizePencilNode` — the claim's "every design node" digit-stripping
does not happen for non-text nodes. -/
theorem C6_counterexample_nontext_keeps_suffix :
    (normalizePencilNode idGenX C6lineDivider1 "header" 0).path =
      "header > divider1[0]" ∧
    "header > divider1[0]" ≠ "header > divider[0]" := by
  refine ⟨rfl, by decide⟩

/-- C6 (amended): `normalizePencilName` (strip the trailing digit run,
drop non-alphanumerics, lower-case a leading capital) is applied only to
text nodes with a truthy name; every other node uses its raw name (or its
type when the name is absent/empty) as the path segment. -/
theorem C6_name_normalization_text_only :
    (∀ (idGen : String → String) (node : PencilNode) (pp : String) (i : ℕ),
      ¬ (node.ty = "text" ∧ truthyStr node.name = true) →
      (normalizePencilNode idGen node pp i).path =
        buildPath pp (jsOrStr node.name node.ty) i) ∧
    (∀ (idGen : String → String) (node : PencilNode) (pp : String) (i : ℕ),
      node.ty = "text" → truthyStr node.name = true →
      (normalizePencilNode idGen node pp i).path =
        buildPath pp (normalizePencilName (node.name.getD "")) i) ∧
    normalizePencilName "divider1" = "divider" ∧
    normalizePencilName "divider2" = "divider" := by
  refine ⟨?_, ?_, rfl, rfl⟩
  · intro idGen node pp i h
    cases node with
    | mk nid nty nname ncontent nfs nfw nfill nstroke npad ngap nbr ncr nw
        nh nlay njc nai nch =>
      simp only [PencilNode.ty, PencilNode.name] at h ⊢
      simp only [normalizePencilNode, StandardElement.path]
      rw [if_neg h]
  · intro idGen node pp i h1 h2
    cases node with
    | mk nid nty nname ncontent nfs nfw nfill nstroke npad ngap nbr ncr nw
        nh nlay njc nai nch =>
      simp only [PencilNode.ty, PencilNode.name] at h1 h2 ⊢
      simp only [normalizePencilNode, StandardElement.path]
      rw [if_pos ⟨h1, h2⟩]

/-- C6 (witness): both branches of the amended claim at concrete nodes —
the `line` node `divider1` keeps its raw name, the `text` node `divider1`
goes through `normalizePencilName`. -/
theorem C6_name_normalization_text_only_witness :
    (normalizePencilNode idGenX C6lineDivider1 "header" 0).path =
      buildPath "header" (jsOrStr (some "divider1") "line") 0 ∧
    (normalizePencilNode idGenX C6textDivider1 "header" 0).path =
      buildPath "header" (normalizePencilName "divider1") 0 :=
  ⟨C6_name_normalization_text_only.1 idGenX C6lineDivider1 "header" 0
      (by decide),
    C6_name_normalization_text_only.2.1 idGenX C6textDivider1 "header" 0
      rfl rfl⟩

/-- C7 (counterexample): for a `className` given by the template literal
`` `${styles.a} ${styles.b}` `` over a stylesheet defining both classes,
`extractStyleFromProps` merges nothing, while the claimed behaviour
(`specStyleFromProps`, which merges every recursively referenced class)
yields both classes' properties. -/
theorem C7_counterexample_template_literal_classes :
    extractStyleFromProps C7attrs C7css = [] ∧
    specStyleFromProps C7attrs C7css =
      [("padding", .num 8), ("gap", .num 4)] ∧
    extractClassNames C7attrs = ["a", "b"] := by
  refine ⟨rfl, rfl, rfl⟩

/-- C7 (amended): style resolution merges stylesheet properties only for
a `className` that is a direct member-style reference; template-literal,
logical, ternary and binary className expressions contribute nothing to
the style map (their recursively extracted class names feed only path
construction via `extractClassNames`). -/
theorem C7_style_resolution_direct_member_only :
    (∀ (e : JSXExpr) (css : CssMap) (styles0 : List (String × JSVal)),
      isComplexClassExpr e = true →
      extractStyleStep css styles0 (.jsxAttr "className" (some (.valExpr e))) =
        styles0) ∧
    (∀ (obj prop : String) (css : CssMap) (styles0 : List (String × JSVal))
        (cls : List (String × JSVal)), assocGet css prop = some cls →
      extractStyleStep css styles0
          (.jsxAttr "className" (some (.valExpr (.member obj prop)))) =
        objectAssign styles0 cls) := by
  constructor
  · intro e css styles0 he
    cases e <;> simp_all [isComplexClassExpr, extractStyleStep]
  · intro obj prop css styles0 cls h
    simp [extractStyleStep, h]

/-- C7 (witness): the complex-expression branch of the amended claim at
the concrete template literal, and the direct-member branch at class
`a`. -/
theorem C7_style_resolution_direct_member_only_witness :
    (isComplexClassExpr C7expr = true ∧
      extractStyleStep C7css []
        (.jsxAttr "className" (some (.valExpr C7expr))) = []) ∧
    (assocGet C7css "a" = some [("padding", .num 8)] ∧
      extractStyleStep C7css []
          (.jsxAttr "className" (some (.valExpr (.member "styles" "a")))) =
        objectAssign [] [("padding", .num 8)]) :=
  ⟨⟨rfl, C7_style_resolution_direct_member_only.1 C7expr C7css [] rfl⟩,
   ⟨rfl, C7_style_resolution_direct_member_only.2 "styles" "a" C7css []
      [("padding", .num 8)] rfl⟩⟩

/-- C8: whenever the markup parser fails (the parse collaborator returns
an error), `normalizeCodeFile` returns the empty element sequence as a
normal value — `Except.ok []`, never `Except.error` — so the parse error
is not propagated as an exception. -/
theorem C8_parse_failure_empty_result
    (parseTsx : String → Except String TsxAst) (parseCss : String → CssMap)
    (idGen : String → String) (tsxCode cssCode e : String)
    (h : parseTsx tsxCode = .error e) :
    normalizeCodeFile parseTsx parseCss idGen tsxCode cssCode = .ok [] := by
  simp [normalizeCodeFile, h]

/-- C8 (witness): a parser that throws on every input yields `ok []`. -/
theorem C8_parse_failure_empty_result_witness :
    C8failingParse "<div" = .error "SyntaxError: Unexpected token" ∧
    normalizeCodeFile C8failingParse C8emptyCss idGenX "<div" ".a {}" =
      .ok [] :=
  ⟨rfl, C8_parse_failure_empty_result C8failingParse C8emptyCss idGenX
    "<div" ".a {}" "SyntaxError: Unexpected token" rfl⟩

/-- C9 (counterexample): at tolerance `0`, for the distinct strings
`#AAAAAA` and `#aaaaaa` whose RGB distance is `0` (hence
`colorDistance ≤ tolerance` holds), `colorsEqual` returns `false` — the
claimed equivalence "equal iff identical or distance ≤ tolerance" fails,
because the source only compares distances when `tolerance > 0`. -/
theorem C9_counterexample_zero_tolerance :
    colorsEqual "#AAAAAA" "#aaaaaa" 0 = false ∧
    colorDistanceLe "#AAAAAA" "#aaaaaa" 0 = true ∧
    "#AAAAAA" ≠ "#aaaaaa" := by
  refine ⟨rfl, rfl, by decide⟩

/-- C9 (amended): `colorsEqual c1 c2 t` is true exactly when the strings
are identical, or `t > 0` and `colorDistance c1 c2 ≤ t`; the claim's
concrete scenario holds: `#000000` vs `#0A0A0A` (RGB distance √300 ≈ 17.3)
is unequal at tolerance 10 and equal at tolerance 20. -/
theorem C9_colors_equal_characterization :
    (∀ (c1 c2 : String) (t : ℚ),
      colorsEqual c1 c2 t = true ↔
        (c1 = c2 ∨ (0 < t ∧ colorDistanceLe c1 c2 t = true))) ∧
    colorsEqual "#000000" "#0A0A0A" 10 = false ∧
    colorsEqual "#000000" "#0A0A0A" 20 = true ∧
    colorDistanceSq "#000000" "#0A0A0A" = 300 := by
  refine ⟨?_, rfl, rfl, rfl⟩
  intro c1 c2 t
  unfold colorsEqual
  by_cases h1 : c1 = c2
  · simp [h1]
  · by_cases h2 : 0 < t <;> simp [h1, h2]

/-- C10: tolerance monotonicity of `valuesEqual` on numeric pairs — for
any property hint, if the values compare equal at tolerance `t1 < t2`,
they compare equal at `t2` (the fontWeight branch ignores the tolerance;
the numeric branch is `|a−b| ≤ t`). -/
theorem C10_tolerance_monotonicity (a b t1 t2 : ℚ)
    (property : Option String) (hlt : t1 < t2)
    (h : valuesEqual (.num a) (.num b) t1 property = true) :
    valuesEqual (.num a) (.num b) t2 property = true := by
  rw [valuesEqual_num_num] at h ⊢
  by_cases hab : a = b
  · simp [hab]
  · by_cases hp : property = some "fontWeight"
    · simp [hab, hp] at h
    · simp only [hab, hp, if_false] at h ⊢
      have h' : jsAbs (a - b) ≤ t1 := of_decide_eq_true h
      exact decide_eq_true (le_trans h' (le_of_lt hlt))

/-- C10 (witness): `0` and `1` are equal at tolerance `1`, hence at
tolerance `2`. -/
theorem C10_tolerance_monotonicity_witness :
    (1 : ℚ) < 2 ∧ valuesEqual (.num 0) (.num 1) 1 none = true ∧
    valuesEqual (.num 0) (.num 1) 2 none = true := by
  have h1 : (1 : ℚ) < 2 := by norm_num
  have h2 : valuesEqual (.num 0) (.num 1) 1 none = true := by
    rw [valuesEqual_num_num]
    simp [jsAbs]
  exact ⟨h1, h2, C10_tolerance_monotonicity 0 1 1 2 none h1 h2⟩

end PencilCompare
